import Mathlib

/-!
Verification of the Access-Request Policy Evaluation Engine

A shallow embedding of the engine implemented in `src/backend/src/routes/access.ts`,
`src/backend/src/utils/db.ts` and `src/backend/src/events/bus.ts`, together with
theorems settling the frozen claims about it.

Modelling conventions, used throughout:
  * JavaScript runtime values that flow through the engine are JSON-shaped
    (they come from `JSON.parse`, request bodies, or decoded credentials), so
    they are embedded as the inductive type `J` below.  JavaScript `undefined`
    is represented as the *absence* of a value (`Option J` with `none`, or a
    failed field lookup), while JavaScript `null` is the value `J.jNull`.
  * JavaScript numbers are embedded as `Int`.  Every number the engine itself
    produces (timestamps, ages, ids) is an integer; fractional or exotic
    float behaviour is outside the embedding.
  * JavaScript objects are embedded as ordered association lists
    `List (String × J)`.  Property read (`getField`) takes the *last* binding
    of a key, matching what `JSON.parse` yields on duplicate keys, and
    property write (`setKey`) overwrites every binding in place or appends,
    matching assignment on an object whose keys are unique.
  * `JSON.stringify` / `JSON.parse` are embedded as the executable
    `printJson` / `parseJson` below, covering the documents this engine
    actually stores: integer numbers and no insignificant whitespace
    (the engine only ever parses its own output or caller-sent compact JSON).
    `parseJson_printJson` proves the round trip used by the storage layer.
  * Strings are Lean `String`s (unicode scalars); the UTF-16 surrogate
    representation of JavaScript strings is not observable in the engine.
-/

/-- A JSON-shaped JavaScript runtime value (see the conventions above). -/
inductive J where
  | jNull
  | jBool (b : Bool)
  | jNum (n : Int)
  | jStr (s : String)
  | jArr (elems : List J)
  | jObj (fields : List (String × J))
deriving Repr

/-- Property read on an object's field list: the last binding of `k` wins,
as it does for a JavaScript object built by `JSON.parse` or by assignment. -/
def getField : List (String × J) → String → Option J
  | [], _ => none
  | (k', v) :: rest, k =>
    match getField rest k with
    | some w => some w
    | none => if k' = k then some v else none

/-- Property read `j?.[k]` on any value: only objects yield fields; on every
other value (including arrays: the engine only reads non-index keys such as
"all" or "claim") the read is `undefined`, i.e. `none`. -/
def jGet : J → String → Option J
  | J.jObj fields, k => getField fields k
  | _, _ => none

/-- Property write `obj[k] = v` on an object with unique keys: overwrite the
binding in place, or append a new one. -/
def setKey (fields : List (String × J)) (k : String) (v : J) : List (String × J) :=
  if fields.any (fun p => p.1 = k) then
    fields.map (fun p => if p.1 = k then (k, v) else p)
  else
    fields ++ [(k, v)]

/-- JavaScript truthiness of a defined value. -/
def jTruthy : J → Bool
  | J.jNull => false
  | J.jBool b => b
  | J.jNum n => n != 0
  | J.jStr s => s ≠ ""
  | J.jArr _ => true
  | J.jObj _ => true

/-- Truthiness of a possibly-`undefined` value (`none` is `undefined`). -/
def jTruthyOpt : Option J → Bool
  | none => false
  | some v => jTruthy v

/-- The nullish-coalescing operator `a ?? b`: skip `undefined` and `null`. -/
def jCoalesce : Option J → Option J → Option J
  | none, b => b
  | some J.jNull, b => b
  | some v, _ => some v

/-- Strict equality `a === b`.  Primitives compare by value; arrays and
objects compare by reference, and the two operands of every `===` in the
engine are separately constructed (one parsed from storage, one decoded from
a credential), so for them the comparison is `false`. -/
def jsStrictEq : J → J → Bool
  | J.jNull, J.jNull => true
  | J.jBool a, J.jBool b => a == b
  | J.jNum a, J.jNum b => a == b
  | J.jStr a, J.jStr b => a == b
  | _, _ => false

/-- Strict equality against a possibly-`undefined` right operand: a defined
value is never `=== undefined`. -/
def jsStrictEqOpt (v : J) : Option J → Bool
  | none => false
  | some w => jsStrictEq v w

/-- Decimal digit characters of `n`, most significant first. -/
def natChars (n : Nat) : List Char :=
  if n < 10 then [Char.ofNat (48 + n)]
  else natChars (n / 10) ++ [Char.ofNat (48 + n % 10)]
termination_by n
decreasing_by exact Nat.div_lt_self (by omega) (by omega)

/-- Characters of an integer: optional minus sign, then decimal digits. -/
def intChars (i : Int) : List Char :=
  if i < 0 then '-' :: natChars i.natAbs else natChars i.natAbs

/-- Decimal rendering of an integer, as JavaScript's `String(n)` renders it. -/
def intStr (i : Int) : String := String.mk (intChars i)

-- String coercion `String(v)` (and template-literal interpolation) of a
-- defined value: arrays join their elements with "," rendering null holes as
-- empty, plain objects render as "[object Object]".
mutual
def jsString : J → String
  | J.jNull => "null"
  | J.jBool true => "true"
  | J.jBool false => "false"
  | J.jNum n => intStr n
  | J.jStr s => s
  | J.jArr xs => jsStringArr xs
  | J.jObj _ => "[object Object]"
def jsStringArr : List J → String
  | [] => ""
  | [x] => jsStringElem x
  | x :: y :: xs => jsStringElem x ++ "," ++ jsStringArr (y :: xs)
def jsStringElem : J → String
  | J.jNull => ""
  | v => jsString v
end

/-- String coercion of a possibly-`undefined` value, as a template literal
coerces it: `undefined` renders as "undefined". -/
def jsStringU : Option J → String
  | none => "undefined"
  | some v => jsString v

def isDigitC (c : Char) : Bool := 48 ≤ c.toNat && c.toNat ≤ 57

def digitVal (c : Char) : Nat := c.toNat - 48

/-- Longest leading run of decimal digits, and the remainder. -/
def takeDigitRun : List Char → List Char × List Char
  | [] => ([], [])
  | c :: cs =>
    if isDigitC c then
      let p := takeDigitRun cs
      (c :: p.1, p.2)
    else ([], c :: cs)

def digitRunVal (ds : List Char) : Nat :=
  ds.foldl (fun a c => 10 * a + digitVal c) 0

/-- Number coercion of a trimmed string, as `Number(s)` coerces it on the
strings this engine meets: empty is 0, an optional sign and a digit run is
that integer, anything else (including floats, which the engine never
stores) is NaN, i.e. `none`. -/
def strDigitsToInt : List Char → Option Int
  | [] => some 0
  | '-' :: ds =>
    if ds ≠ [] ∧ ds.all isDigitC then some (-(digitRunVal ds : Int)) else none
  | '+' :: ds =>
    if ds ≠ [] ∧ ds.all isDigitC then some ((digitRunVal ds : Int)) else none
  | ds =>
    if ds.all isDigitC then some ((digitRunVal ds : Int)) else none

/-- JavaScript-style whitespace, as `Number(string)` strips it. -/
def isJsWs (c : Char) : Bool := c = ' ' || c = '\t' || c = '\n' || c = '\r'

def dropWsLeft : List Char → List Char
  | [] => []
  | c :: t => if isJsWs c then dropWsLeft t else c :: t

/-- Strip leading and trailing whitespace from a character list. -/
def trimChars (l : List Char) : List Char :=
  (dropWsLeft (dropWsLeft l).reverse).reverse

def strToNumber (s : String) : Option Int := strDigitsToInt (trimChars s.data)

/-- `String.prototype.trim()` on the whitespace this engine meets. -/
def jsTrim (s : String) : String := String.mk (trimChars s.data)

/-- Number coercion `Number(v)` of a defined value; `none` is NaN. -/
def jsNumber : J → Option Int
  | J.jNull => some 0
  | J.jBool b => some (if b then 1 else 0)
  | J.jNum n => some n
  | J.jStr s => strToNumber s
  | J.jArr xs => strToNumber (jsString (J.jArr xs))
  | J.jObj _ => none

/-- Number coercion of a possibly-`undefined` value: `Number(undefined)` is NaN. -/
def jsNumberOpt : Option J → Option Int
  | none => none
  | some v => jsNumber v

/-- Whether `pat` occurs as a substring of `hay` (`String.prototype.includes`). -/
def charsContain : List Char → List Char → Bool
  | hay, pat =>
    if pat.isPrefixOf hay then true
    else
      match hay with
      | [] => false
      | _ :: t => charsContain t pat

def strContains (hay pat : String) : Bool := charsContain hay.data pat.data

/-- Membership test `arr.includes(x)` where `x` may be `undefined`: the
engine's arrays hold defined values only, so `undefined` is never found. -/
def jsIncludes (xs : List J) : Option J → Bool
  | none => false
  | some w => xs.any (fun x => jsStrictEq x w)

/-- The lower-case hex digit for `n < 16`. -/
def hexCharOf (n : Nat) : Char :=
  if n < 10 then Char.ofNat (48 + n) else Char.ofNat (87 + n)

/-- Value of a hex digit character. -/
def hexDigitVal (c : Char) : Option Nat :=
  if 48 ≤ c.toNat ∧ c.toNat ≤ 57 then some (c.toNat - 48)
  else if 97 ≤ c.toNat ∧ c.toNat ≤ 102 then some (c.toNat - 87)
  else if 65 ≤ c.toNat ∧ c.toNat ≤ 70 then some (c.toNat - 55)
  else none

/-- One character as `JSON.stringify` escapes it inside a string literal. -/
def escChar (c : Char) : List Char :=
  if c = '"' then ['\\', '"']
  else if c = '\\' then ['\\', '\\']
  else if c = '\x08' then ['\\', 'b']
  else if c = '\x0c' then ['\\', 'f']
  else if c = '\n' then ['\\', 'n']
  else if c = '\r' then ['\\', 'r']
  else if c = '\t' then ['\\', 't']
  else if c.toNat < 32 then
    ['\\', 'u', '0', '0', hexCharOf (c.toNat / 16), hexCharOf (c.toNat % 16)]
  else [c]

def escBody : List Char → List Char
  | [] => []
  | c :: cs => escChar c ++ escBody cs

/-- A JSON string literal: quote, escaped body, quote. -/
def strLit (s : String) : List Char := '"' :: (escBody s.data ++ ['"'])

-- Characters of `JSON.stringify v` (compact form, as JavaScript emits with
-- no spacing argument).
mutual
def printJ : J → List Char
  | J.jNull => ['n', 'u', 'l', 'l']
  | J.jBool true => ['t', 'r', 'u', 'e']
  | J.jBool false => ['f', 'a', 'l', 's', 'e']
  | J.jNum i => intChars i
  | J.jStr s => strLit s
  | J.jArr xs => '[' :: (printItems xs ++ [']'])
  | J.jObj fs => '{' :: (printPairs fs ++ ['}'])
def printItems : List J → List Char
  | [] => []
  | [x] => printJ x
  | x :: y :: xs => printJ x ++ ',' :: printItems (y :: xs)
def printPairs : List (String × J) → List Char
  | [] => []
  | [(k, v)] => strLit k ++ ':' :: printJ v
  | (k, v) :: q :: fs => (strLit k ++ ':' :: printJ v) ++ ',' :: printPairs (q :: fs)
end

/-- The embedding of `JSON.stringify`. -/
def printJson (j : J) : String := String.mk (printJ j)

/-- The counterpart of `unescape` inside `JSON.parse`: the character named by
a single-letter escape. -/
def escNamed : Char → Option Char
  | '"' => some '"'
  | '\\' => some '\\'
  | '/' => some '/'
  | 'b' => some '\x08'
  | 'f' => some '\x0c'
  | 'n' => some '\n'
  | 'r' => some '\r'
  | 't' => some '\t'
  | _ => none

/-- Parse the body of a JSON string after its opening quote, yielding the
characters and the remainder past the closing quote. -/
def pStrBody : List Char → Option (List Char × List Char)
  | [] => none
  | c :: rest =>
    if c = '"' then some ([], rest)
    else if c = '\\' then
      match rest with
      | 'u' :: h1 :: h2 :: h3 :: h4 :: rest2 =>
        match hexDigitVal h1, hexDigitVal h2, hexDigitVal h3, hexDigitVal h4 with
        | some a, some b, some v3, some v4 =>
          (pStrBody rest2).map (fun p => (Char.ofNat (4096 * a + 256 * b + 16 * v3 + v4) :: p.1, p.2))
        | _, _, _, _ => none
      | e :: rest2 =>
        if e = 'u' then none
        else
          match escNamed e with
          | some c2 => (pStrBody rest2).map (fun p => (c2 :: p.1, p.2))
          | none => none
      | [] => none
    else (pStrBody rest).map (fun p => (c :: p.1, p.2))

/-- Parse a nonempty digit run into its value. -/
def pDigits (cs : List Char) : Option (Nat × List Char) :=
  match takeDigitRun cs with
  | ([], _) => none
  | (ds, r) => some (digitRunVal ds, r)

-- The embedding of `JSON.parse`, fuel-indexed (`pValue`), on the compact
-- documents this engine stores: values, comma-separated array items, and
-- comma-separated object pairs.
mutual
def pValue : Nat → List Char → Option (J × List Char)
  | 0, _ => none
  | _ + 1, [] => none
  | fuel + 1, c :: rest =>
    if c = 'n' then
      match rest with
      | 'u' :: 'l' :: 'l' :: r => some (J.jNull, r)
      | _ => none
    else if c = 't' then
      match rest with
      | 'r' :: 'u' :: 'e' :: r => some (J.jBool true, r)
      | _ => none
    else if c = 'f' then
      match rest with
      | 'a' :: 'l' :: 's' :: 'e' :: r => some (J.jBool false, r)
      | _ => none
    else if c = '"' then
      (pStrBody rest).map (fun p => (J.jStr (String.mk p.1), p.2))
    else if c = '-' then
      (pDigits rest).map (fun p => (J.jNum (-(p.1 : Int)), p.2))
    else if isDigitC c then
      (pDigits (c :: rest)).map (fun p => (J.jNum ((p.1 : Int)), p.2))
    else if c = '[' then
      match rest with
      | ']' :: r => some (J.jArr [], r)
      | _ => (pItems fuel rest).map (fun p => (J.jArr p.1, p.2))
    else if c = '{' then
      match rest with
      | '}' :: r => some (J.jObj [], r)
      | _ => (pPairs fuel rest).map (fun p => (J.jObj p.1, p.2))
    else none
def pItems : Nat → List Char → Option (List J × List Char)
  | 0, _ => none
  | fuel + 1, cs =>
    match pValue fuel cs with
    | some (v, r) =>
      match r with
      | ',' :: r2 => (pItems fuel r2).map (fun p => (v :: p.1, p.2))
      | ']' :: r2 => some ([v], r2)
      | _ => none
    | none => none
def pPairs : Nat → List Char → Option (List (String × J) × List Char)
  | 0, _ => none
  | fuel + 1, cs =>
    match cs with
    | '"' :: r0 =>
      match pStrBody r0 with
      | some (kcs, r1) =>
        match r1 with
        | ':' :: r2 =>
          match pValue fuel r2 with
          | some (v, r3) =>
            match r3 with
            | ',' :: r4 => (pPairs fuel r4).map (fun p => ((String.mk kcs, v) :: p.1, p.2))
            | '}' :: r4 => some ([(String.mk kcs, v)], r4)
            | _ => none
          | none => none
        | _ => none
      | none => none
    | _ => none
end

/-- The embedding of `JSON.parse` on a whole document: the parse must consume
every character; a failure (JavaScript throws) is `none`. -/
def parseJson (s : String) : Option J :=
  match pValue (s.data.length + 1) s.data with
  | some (j, []) => some j
  | _ => none

/-- A field looked up in an object's field list is structurally smaller than
the list (for termination of the recursions that follow the source's
duck-typed field reads). -/
theorem getField_sizeOf {fs : List (String × J)} {k : String} {v : J}
    (h : getField fs k = some v) : sizeOf v < sizeOf fs := by
  induction fs with
  | nil => simp [getField] at h
  | cons p rest ih =>
    obtain ⟨k', w⟩ := p
    simp only [getField] at h
    cases hrec : getField rest k with
    | some u =>
      rw [hrec] at h
      cases Option.some.inj h
      have := ih hrec
      simp only [List.cons.sizeOf_spec, Prod.mk.sizeOf_spec]
      omega
    | none =>
      rw [hrec] at h
      by_cases hk : k' = k
      · simp only [hk, if_pos rfl] at h
        cases Option.some.inj h
        simp only [List.cons.sizeOf_spec, Prod.mk.sizeOf_spec]
        omega
      · simp [hk] at h

/-- A property read on any value yields something structurally smaller. -/
theorem jGet_sizeOf {j : J} {k : String} {v : J} (h : jGet j k = some v) :
    sizeOf v < sizeOf j := by
  cases j <;> simp only [jGet] at h
  all_goals try exact absurd h (by simp)
  case jObj fields =>
    have := getField_sizeOf h
    simp only [J.jObj.sizeOf_spec]
    omega

/-- The verdict of one scalar comparison (`evaluateScalar` in access.ts). -/
structure ScalarVerdict where
  pass : Bool
  reason : String
deriving Repr, DecidableEq

/-- The result of evaluating a condition expression (`EvaluationResult`). -/
structure EvalResult where
  pass : Bool
  reason : String
  values : List (String × J)
deriving Repr

/-- The embedding of `evaluateScalar` (access.ts lines 68-194): compare a
claim value against a scalar condition, which may be a bare string (string
equality after coercion), or an object carrying `op`/`operator` and
`value`/`expected`. -/
def evaluateScalar (value : J) (cond : Option J) : ScalarVerdict :=
  match cond with
  | none => ⟨false, "Missing comparison operator"⟩
  | some J.jNull => ⟨false, "Missing comparison operator"⟩
  | some (J.jStr s) =>
    let pass := jsString value == s
    ⟨pass,
      if pass then "Value \"" ++ jsString value ++ "\" equals \"" ++ s ++ "\""
      else "Value \"" ++ jsString value ++ "\" does not equal \"" ++ s ++ "\""⟩
  | some c =>
    let op := jCoalesce (jGet c "op") (jCoalesce (jGet c "operator") (some (J.jStr "equals")))
    let expected := jCoalesce (jGet c "value") (jGet c "expected")
    let opName := match op with | some (J.jStr s) => s | _ => ""
    if opName = ">=" then
      match jsNumber value, jsNumberOpt expected with
      | some actual, some exp =>
        let pass := actual ≥ exp
        ⟨pass,
          if pass then "Value " ++ intStr actual ++ " is ≥ " ++ intStr exp
          else "Value " ++ intStr actual ++ " is < " ++ intStr exp⟩
      | _, _ => ⟨false, "Non-numeric comparison for >= operator"⟩
    else if opName = ">" then
      match jsNumber value, jsNumberOpt expected with
      | some actual, some exp =>
        let pass := actual > exp
        ⟨pass,
          if pass then "Value " ++ intStr actual ++ " is > " ++ intStr exp
          else "Value " ++ intStr actual ++ " is ≤ " ++ intStr exp⟩
      | _, _ => ⟨false, "Non-numeric comparison for > operator"⟩
    else if opName = "<=" then
      match jsNumber value, jsNumberOpt expected with
      | some actual, some exp =>
        let pass := actual ≤ exp
        ⟨pass,
          if pass then "Value " ++ intStr actual ++ " is ≤ " ++ intStr exp
          else "Value " ++ intStr actual ++ " is > " ++ intStr exp⟩
      | _, _ => ⟨false, "Non-numeric comparison for <= operator"⟩
    else if opName = "<" then
      match jsNumber value, jsNumberOpt expected with
      | some actual, some exp =>
        let pass := actual < exp
        ⟨pass,
          if pass then "Value " ++ intStr actual ++ " is < " ++ intStr exp
          else "Value " ++ intStr actual ++ " is ≥ " ++ intStr exp⟩
      | _, _ => ⟨false, "Non-numeric comparison for < operator"⟩
    else if opName = "contains" ∨ opName = "includes" then
      match value with
      | J.jArr xs =>
        let pass := jsIncludes xs expected
        ⟨pass,
          if pass then "Value contains \"" ++ jsStringU expected ++ "\""
          else "Value does not contain \"" ++ jsStringU expected ++ "\""⟩
      | J.jStr s =>
        let pass := strContains s (jsStringU expected)
        ⟨pass,
          if pass then "Value contains \"" ++ jsStringU expected ++ "\""
          else "Value does not contain \"" ++ jsStringU expected ++ "\""⟩
      | _ => ⟨false, "Value is not list-like for contains/includes check"⟩
    else if opName = "startsWith" then
      let actual := match value with | J.jNull => "" | v => jsString v
      let pfx := match expected with | none => "" | some J.jNull => "" | some v => jsString v
      let pass := actual.startsWith pfx
      ⟨pass,
        if pass then "Value starts with \"" ++ pfx ++ "\""
        else "Value does not start with \"" ++ pfx ++ "\""⟩
    else if opName = "endsWith" then
      let actual := match value with | J.jNull => "" | v => jsString v
      let sfx := match expected with | none => "" | some J.jNull => "" | some v => jsString v
      let pass := actual.endsWith sfx
      ⟨pass,
        if pass then "Value ends with \"" ++ sfx ++ "\""
        else "Value does not end with \"" ++ sfx ++ "\""⟩
    else
      let pass := jsStrictEqOpt value expected
      ⟨pass,
        if pass then "Value \"" ++ jsString value ++ "\" equals \"" ++ jsStringU expected ++ "\""
        else "Value \"" ++ jsString value ++ "\" does not equal \"" ++ jsStringU expected ++ "\""⟩

/-- The spread-merge of the child results' `values`, later children
overwriting earlier keys (access.ts lines 231-234 and 251-254). -/
def mergeValues (results : List EvalResult) : List (String × J) :=
  results.foldl (fun acc r => r.values.foldl (fun m p => setKey m p.1 p.2) acc) []

-- The embedding of `evaluateExpression` (access.ts lines 196-285): a
-- condition is duck-typed — null, a bare string (equality against the
-- fallback claim's value), an object with an `all` array (AND), with an
-- `any` array (OR), or a scalar condition object.  Each child of `all`/`any`
-- is evaluated with the child's own `claim` as fallback when present.
mutual
def evaluateExpression (subject expression : J) (fallbackClaim : Option J) : EvalResult :=
  match expression with
  | J.jNull => ⟨false, "Missing condition", []⟩
  | J.jStr s =>
    match fallbackClaim with
    | none => ⟨false, "No claim specified for condition", []⟩
    | some fc =>
      if jTruthy fc then
        let key := jsString fc
        match jGet subject key with
        | none => ⟨false, "Claim \"" ++ key ++ "\" not present in credential", []⟩
        | some value =>
          let scalar := evaluateScalar value (some (J.jObj [("op", J.jStr "equals"), ("value", J.jStr s)]))
          ⟨scalar.pass, key ++ ": " ++ scalar.reason, [(key, value)]⟩
      else ⟨false, "No claim specified for condition", []⟩
  | expr =>
    match hAll : jGet expr "all" with
    | some (J.jArr children) =>
      let results := evalChildren subject children fallbackClaim
      let pass := results.all (fun r => r.pass)
      ⟨pass,
        (if pass then "All conditions satisfied: " else "Some conditions failed: ")
          ++ String.intercalate " | " (results.map (fun r => r.reason)),
        mergeValues results⟩
    | _ =>
      match hAny : jGet expr "any" with
      | some (J.jArr children) =>
        let results := evalChildren subject children fallbackClaim
        let pass := results.any (fun r => r.pass)
        ⟨pass,
          (if pass then "At least one condition satisfied: " else "No conditions satisfied: ")
            ++ String.intercalate " | " (results.map (fun r => r.reason)),
          mergeValues results⟩
      | _ =>
        match jCoalesce (jGet expr "claim") fallbackClaim with
        | none => ⟨false, "No claim specified for condition", []⟩
        | some ck =>
          if jTruthy ck then
            let key := jsString ck
            match jGet subject key with
            | none => ⟨false, "Claim \"" ++ key ++ "\" not present in credential", []⟩
            | some value =>
              let scalar := evaluateScalar value (some expr)
              ⟨scalar.pass, key ++ ": " ++ scalar.reason, [(key, value)]⟩
          else ⟨false, "No claim specified for condition", []⟩
termination_by sizeOf expression
decreasing_by
  · have h1 := jGet_sizeOf hAll
    simp only [J.jArr.sizeOf_spec] at h1
    omega
  · have h1 := jGet_sizeOf hAny
    simp only [J.jArr.sizeOf_spec] at h1
    omega
def evalChildren (subject : J) (entries : List J) (fallbackClaim : Option J) : List EvalResult :=
  match entries with
  | [] => []
  | e :: rest =>
    evaluateExpression subject e (jCoalesce (jGet e "claim") fallbackClaim)
      :: evalChildren subject rest fallbackClaim
termination_by sizeOf entries
decreasing_by
  · simp only [List.cons.sizeOf_spec]
    omega
  · simp only [List.cons.sizeOf_spec]
    omega
end

-- The embedding of `describeCondition` (access.ts lines 47-60): the
-- human-readable rendering stored as `notes.evaluation.condition`.
mutual
def describeCondition (condition : J) : String :=
  if ¬ jTruthy condition then "no condition provided"
  else
    match condition with
    | J.jStr s => s
    | c =>
      match hAll : jGet c "all" with
      | some (J.jArr entries) => "ALL[" ++ describeJoin " & " entries ++ "]"
      | _ =>
        match hAny : jGet c "any" with
        | some (J.jArr entries) => "ANY[" ++ describeJoin " | " entries ++ "]"
        | _ =>
          let claimPart :=
            if jTruthyOpt (jGet c "claim") then jsStringU (jGet c "claim") ++ " " else ""
          let op := jCoalesce (jGet c "op") (jCoalesce (jGet c "operator") (some (J.jStr "==")))
          let expected := jCoalesce (jGet c "value") (jGet c "expected")
          claimPart ++ jsStringU op ++ " " ++ jsStringU expected
termination_by sizeOf condition
decreasing_by
  · have h1 := jGet_sizeOf hAll
    simp only [J.jArr.sizeOf_spec] at h1
    omega
  · have h1 := jGet_sizeOf hAny
    simp only [J.jArr.sizeOf_spec] at h1
    omega
def describeJoin (sep : String) (entries : List J) : String :=
  match entries with
  | [] => ""
  | [x] => describeCondition x
  | x :: y :: xs => describeCondition x ++ sep ++ describeJoin sep (y :: xs)
termination_by sizeOf entries
decreasing_by
  · simp only [List.cons.sizeOf_spec]; omega
  · simp only [List.cons.sizeOf_spec]; omega
  · simp only [List.cons.sizeOf_spec]; omega
end

-- The embedding of `extractPrimaryClaim` (access.ts lines 27-45): the first
-- nonblank `claim` string found on the node itself, else depth-first through
-- an `all` array, else through an `any` array.
mutual
def extractPrimaryClaim (condition : J) : Option String :=
  match condition with
  | J.jObj fields =>
    let own :=
      match getField fields "claim" with
      | some (J.jStr s) => if jsTrim s ≠ "" then some s else none
      | _ => none
    match own with
    | some s => some s
    | none =>
      let fromAll :=
        match hAll : getField fields "all" with
        | some (J.jArr entries) => extractFromList entries
        | _ => none
      match fromAll with
      | some s => some s
      | none =>
        match hAny : getField fields "any" with
        | some (J.jArr entries) => extractFromList entries
        | _ => none
  | _ => none
termination_by sizeOf condition
decreasing_by
  · have h1 := getField_sizeOf hAll
    simp only [J.jArr.sizeOf_spec, J.jObj.sizeOf_spec] at h1 ⊢
    omega
  · have h1 := getField_sizeOf hAny
    simp only [J.jArr.sizeOf_spec, J.jObj.sizeOf_spec] at h1 ⊢
    omega
def extractFromList (entries : List J) : Option String :=
  match entries with
  | [] => none
  | e :: rest =>
    match extractPrimaryClaim e with
    | some s => some s
    | none => extractFromList rest
termination_by sizeOf entries
decreasing_by
  · simp only [List.cons.sizeOf_spec]; omega
  · simp only [List.cons.sizeOf_spec]; omega
end

/-- Decimal rendering of a natural number (for array-index keys). -/
def natStr (n : Nat) : String := String.mk (natChars n)

/-- The embedding of `normalizeAddress` (db.ts line 4). -/
def normalizeAddress (address : String) : String := address.toLower

/-- The embedding of `toNullishJSON` (db.ts lines 19-22): `undefined` and
`null` persist as SQL NULL, everything else as its JSON text. -/
def toNullishJSON : Option J → Option String
  | none => none
  | some J.jNull => none
  | some v => some (printJson v)

/-- The embedding of `notesToObject` (access.ts lines 14-20): parse the
stored notes column; a parsed object (an array included, whose spread yields
index keys) is copied, anything else becomes the empty object. -/
def notesToObject (existing : Option String) : List (String × J) :=
  match existing with
  | none => []
  | some s =>
    match parseJson s with
    | some (J.jObj fields) => fields
    | some (J.jArr xs) => xs.enum.map (fun p => (natStr p.1, p.2))
    | _ => []

/-- The embedding of `serializeNotes` (access.ts lines 22-25): an empty
object persists as SQL NULL. -/
def serializeNotes (fields : List (String × J)) : Option String :=
  if fields.isEmpty then none else some (printJson (J.jObj fields))

/-- The timeline array of a notes object, empty when absent or not an array
(the `Array.isArray(notesObj.timeline) ? notesObj.timeline : []` reads). -/
def timelineOf (fields : List (String × J)) : List J :=
  match getField fields "timeline" with
  | some (J.jArr xs) => xs
  | _ => []

/-- A timeline entry `{state, at}`. -/
def tlEntry (state : String) (now : Nat) : J :=
  J.jObj [("state", J.jStr state), ("at", J.jNum (now : Int))]

/-- One row of the `access_requests` table, as the SQL reads and writes of
access.ts touch it.  Nullable columns are `Option`s; `claim` and `condition`
are non-null by construction of the INSERT. -/
structure Row where
  id : Nat
  citizen_wallet : String
  verifier_wallet : String
  claim : String
  condition : String
  status : String
  notes : Option String
  response_payload : Option String
  created_at : Nat
  updated_at : Option Nat
  responded_at : Option Nat
deriving Repr

/-- An `AccessRequest` as `mapAccessRequestRow` returns it to callers and to
the event bus. -/
structure Mapped where
  id : Nat
  citizenWallet : String
  verifierWallet : String
  claim : String
  condition : J
  status : String
  notes : J
  responsePayload : J
  createdAt : Option Nat
  updatedAt : Option Nat
  respondedAt : Option Nat
deriving Repr

/-- The embedding of `mapAccessRequestRow` (db.ts lines 93-111).  `condition`
is `JSON.parse`d with `null` as the fallback; `notes` falls back to the raw
column text when the parse fails or yields `null`; timestamps are `null`
when the column is NULL or 0 (falsy). -/
def mapAccessRequestRow (row : Row) : Mapped :=
  { id := row.id
    citizenWallet := row.citizen_wallet
    verifierWallet := row.verifier_wallet
    claim := row.claim
    condition := (parseJson row.condition).getD J.jNull
    status := row.status
    notes :=
      match row.notes with
      | none => J.jNull
      | some s =>
        match parseJson s with
        | some J.jNull => J.jStr s
        | none => J.jStr s
        | some v => v
    responsePayload :=
      match row.response_payload with
      | none => J.jNull
      | some s => (parseJson s).getD J.jNull
    createdAt := if row.created_at = 0 then none else some row.created_at
    updatedAt :=
      match row.updated_at with
      | none => none
      | some n => if n = 0 then none else some n
    respondedAt :=
      match row.responded_at with
      | none => none
      | some n => if n = 0 then none else some n }

/-- What one route handler did: the row it left for the addressed id (the
input row when it did not write), the events it emitted on the bus, whether
it answered ok, its error message otherwise, and whether it ran an UPDATE or
INSERT. -/
structure HOut where
  row : Option Row
  events : List (String × Mapped)
  ok : Bool
  error : Option String
  wrote : Bool
deriving Repr

/-- The external collaborators `Evaluate` consults: the verification agent
(`agent.verifyCredential(...).verified`), the claim decoder
(`decoded?.payload?.vc?.credentialSubject ?? decoded?.payload?.credentialSubject
?? {}` collapsed into the decoded claims value), and the credentials table
(`SELECT vc_jwt FROM credentials WHERE id = ?`: `none` = no row, `some none`
= a row whose vc_jwt is NULL). -/
structure Env where
  verify : J → Bool
  decode : J → J
  credLookup : J → Option (Option String)

/-- A truthy string-typed body field (the `!x || typeof x !== 'string'`
validations of the create route). -/
def truthyStrField : Option J → Option String
  | some (J.jStr s) => if s = "" then none else some s
  | _ => none

/-- The body of POST /request (access.ts lines 288-295). -/
structure CreateBody where
  citizenWallet : Option J
  verifierWallet : Option J
  claim : Option J
  condition : Option J
  policy : Option J
  notes : Option J

/-- The `policyInfo` computed by the create route (access.ts lines 334-344):
present when the policy body field is an object with a truthy id or label;
fields that stay `undefined` are dropped, as `JSON.stringify` drops them. -/
def createPolicyInfo (policy : Option J) : Option (List (String × J)) :=
  match policy with
  | some (J.jObj pf) =>
    let idStr := if jTruthyOpt (getField pf "id") then some (jsStringU (getField pf "id")) else none
    let labelStr := if jTruthyOpt (getField pf "label") then some (jsStringU (getField pf "label")) else none
    let descStr :=
      match getField pf "description" with
      | none => none
      | some v => some (jsString v)
    if idStr.isSome ∨ labelStr.isSome then
      some ((idStr.map (fun s => ("id", J.jStr s))).toList
        ++ (labelStr.map (fun s => ("label", J.jStr s))).toList
        ++ (descStr.map (fun s => ("description", J.jStr s))).toList)
    else none
  | _ => none

/-- The `conditionObject` of the create route (access.ts lines 317-319): a
string-typed condition is accepted opaquely and yields no structured object. -/
def createConditionObject (body : CreateBody) : J :=
  match body.condition.getD J.jNull with | J.jStr _ => J.jNull | c => c

/-- The `conditionPayload` the create route persists (access.ts lines
317-319): a string condition verbatim, everything else `JSON.stringify`d. -/
def createConditionPayload (body : CreateBody) : String :=
  match body.condition.getD J.jNull with | J.jStr s => s | c => printJson c

/-- The primary claim of the create route (access.ts lines 321-331): the
explicit nonblank claim field, else the first claim of the condition tree. -/
def createPrimaryClaim (body : CreateBody) : Option String :=
  match body.claim with
  | some (J.jStr s) =>
    if jsTrim s ≠ "" then some s else extractPrimaryClaim (createConditionObject body)
  | _ => extractPrimaryClaim (createConditionObject body)

/-- The base notes of the create route (access.ts lines 333-356): the
initial timeline entry, then the optional policy and initial message. -/
def createBaseNotes (body : CreateBody) (now : Nat) : List (String × J) :=
  let baseNotes0 := [("timeline", J.jArr [tlEntry "requested" now])]
  let baseNotes1 :=
    match createPolicyInfo body.policy with
    | some pf => baseNotes0 ++ [("policy", J.jObj pf)]
    | none => baseNotes0
  match body.notes with
  | some (J.jStr m) =>
    if jsTrim m ≠ "" then baseNotes1 ++ [("initialMessage", J.jStr (jsTrim m))] else baseNotes1
  | _ => baseNotes1

/-- The row the create route INSERTs (access.ts lines 358-370). -/
def createRow (body : CreateBody) (cw vw claimStr : String) (now newId : Nat) : Row :=
  { id := newId
    citizen_wallet := normalizeAddress cw
    verifier_wallet := normalizeAddress vw
    claim := claimStr
    condition := createConditionPayload body
    status := "requested"
    notes := serializeNotes (createBaseNotes body now)
    response_payload := none
    created_at := now
    updated_at := none
    responded_at := none }

/-- The embedding of POST /request (access.ts lines 287-383): validate the
wallets and the condition, resolve the primary claim (explicit field first,
else the first claim in the condition tree), build the base notes with the
initial timeline entry, INSERT the row, emit `access_request.created`. -/
def createHandler (body : CreateBody) (now : Nat) (newId : Nat) : HOut :=
  match truthyStrField body.citizenWallet with
  | none => ⟨none, [], false, some "citizenWallet required", false⟩
  | some cw =>
    match truthyStrField body.verifierWallet with
    | none => ⟨none, [], false, some "verifierWallet required", false⟩
    | some vw =>
      if ¬ jTruthyOpt body.condition then
        ⟨none, [], false, some "condition required", false⟩
      else
        match createPrimaryClaim body with
        | none => ⟨none, [], false, some "Unable to determine claim for access request", false⟩
        | some claimStr =>
          let row := createRow body cw vw claimStr now newId
          ⟨some row, [("access_request.created", mapAccessRequestRow row)], true, none, true⟩

/-- The embedding of GET / (access.ts lines 385-430), the read-only listing:
filter by the wallets and optional status; no event, no write. -/
def listHandler (rows : List Row) (citizenW verifierW statusQ : Option String) :
    List Mapped × List (String × Mapped) × Bool :=
  match citizenW, verifierW with
  | none, none => ([], [], false)
  | _, _ =>
    let keep := fun (r : Row) =>
      (match citizenW with | some w => r.citizen_wallet == normalizeAddress w | none => true)
        && (match verifierW with | some w => r.verifier_wallet == normalizeAddress w | none => true)
        && (match statusQ with | some st => r.status == st | none => true)
    ((rows.filter keep).map mapAccessRequestRow, [], true)

/-- The embedding of POST /:id/challenge (access.ts lines 478-514): on any
existing row — its current status is never inspected — set
`notes.challenge`, append a `challenge_sent` timeline entry, UPDATE status,
notes and updated_at, emit `access_request.updated`. -/
def challengeHandler (store : Option Row) (msg : Option J) (now : Nat) : HOut :=
  match store with
  | none => ⟨none, [], false, some "access request not found", false⟩
  | some row =>
    let notesObj := notesToObject row.notes
    let msgVal := match msg with | none => J.jNull | some J.jNull => J.jNull | some v => v
    let notesObj1 :=
      setKey notesObj "challenge" (J.jObj [("message", msgVal), ("issuedAt", J.jNum (now : Int))])
    let timeline :=
      timelineOf notesObj1 ++ [J.jObj [("state", J.jStr "challenge_sent"), ("at", J.jNum (now : Int))]]
    let notesObj2 := setKey notesObj1 "timeline" (J.jArr timeline)
    let row' :=
      { row with status := "challenge_sent", notes := serializeNotes notesObj2, updated_at := some now }
    ⟨some row', [("access_request.updated", mapAccessRequestRow row')], true, none, true⟩

/-- The status the respond route persists: the caller's string verbatim,
else "responded" (`typeof status === 'string' ? status : 'responded'`). -/
def respondNextStatus : Option J → String
  | some (J.jStr s) => s
  | _ => "responded"

/-- The embedding of POST /:id/respond (access.ts lines 432-476): require a
truthy responsePayload, take the caller's status string verbatim (defaulting
to "responded" when the field is not a string), set `notes.response`, append
a timeline entry, UPDATE response_payload, status, responded_at (always set
to now), updated_at and notes, emit `access_request.updated`. -/
def respondHandler (store : Option Row) (payload : Option J) (statusB : Option J) (now : Nat) : HOut :=
  if ¬ jTruthyOpt payload then ⟨store, [], false, some "responsePayload required", false⟩
  else
    let nextStatus := respondNextStatus statusB
    match store with
    | none => ⟨none, [], false, some "access request not found", false⟩
    | some row =>
      let notesObj := notesToObject row.notes
      let notesObj1 := setKey notesObj "response" (J.jObj [("submittedAt", J.jNum (now : Int))])
      let timeline :=
        timelineOf notesObj1 ++ [J.jObj [("state", J.jStr nextStatus), ("at", J.jNum (now : Int))]]
      let notesObj2 := setKey notesObj1 "timeline" (J.jArr timeline)
      let row' :=
        { row with
          response_payload := toNullishJSON payload
          status := nextStatus
          responded_at := some now
          updated_at := some now
          notes := serializeNotes notesObj2 }
      ⟨some row', [("access_request.updated", mapAccessRequestRow row')], true, none, true⟩

/-- The `normalizedResult` of the evaluate route (access.ts lines 520-527). -/
def evalNormalizedResult : Option J → Option String
  | some (J.jStr s) =>
    if s = "granted" then some "granted" else if s = "denied" then some "denied" else none
  | _ => none

/-- Whether the evaluate route rejects the `result` body field (a string
other than "granted"/"denied", access.ts lines 529-531). -/
def evalResultParamBad (resultB : Option J) : Bool :=
  match resultB with
  | some (J.jStr _) => (evalNormalizedResult resultB).isNone
  | _ => false

/-- The parsed `response_payload` column (access.ts line 554). -/
def evalResponsePayload (row : Row) : Option J :=
  match row.response_payload with
  | none => none
  | some s => parseJson s

/-- The condition the evaluator receives (access.ts lines 545-552): the
stored text parsed as JSON, kept as the raw string when the parse fails. -/
def evalCondition (row : Row) : J :=
  match parseJson row.condition with
  | some c => c
  | none => J.jStr row.condition

/-- Resolution of the presented credential token (access.ts lines 560-570):
prefer `responsePayload.vcJwt`; when that is falsy and `credentialId` is
truthy, look the credential row up and take its vc_jwt column. -/
def evalVcJwt (env : Env) (rp : J) : J :=
  let vc0 :=
    match jGet rp "vcJwt" with
    | none => J.jNull
    | some J.jNull => J.jNull
    | some v => v
  if ¬ jTruthy vc0 ∧ jTruthyOpt (jGet rp "credentialId") then
    match env.credLookup ((jGet rp "credentialId").getD J.jNull) with
    | some col => match col with | none => J.jNull | some s => J.jStr s
    | none => vc0
  else vc0

/-- The embedding of POST /:id/evaluate (access.ts lines 516-638).  After the
structural checks, verification failure forces status "denied" with reason
"Credential verification failed", appends a timeline entry and UPDATEs the
row — without emitting any event (the `return` at line 596 precedes the
route's only `emitEvent`).  On verification success the condition tree is
evaluated against the decoded claims, the caller's override wins when
present, and `access_request.updated` is emitted. -/
def evaluateHandler (env : Env) (store : Option Row) (resultB reasonB : Option J) (now : Nat) : HOut :=
  if evalResultParamBad resultB then
    ⟨store, [], false, some "result must be granted or denied", false⟩
  else
    match store with
    | none => ⟨none, [], false, some "access request not found", false⟩
    | some row =>
      let notesObj := notesToObject row.notes
      let condition := evalCondition row
      let responsePayload := evalResponsePayload row
      if ¬ jTruthyOpt responsePayload then
        ⟨some row, [], false, some "No citizen response available", false⟩
      else
        let rp := responsePayload.getD J.jNull
        let vcJwt := evalVcJwt env rp
        if ¬ jTruthy vcJwt then
          ⟨some row, [], false, some "No verifiable credential supplied in response", false⟩
        else if ¬ env.verify vcJwt then
          let notesObj1 :=
            setKey notesObj "evaluation" (J.jObj
              [("status", J.jStr "denied"),
               ("reason", J.jStr "Credential verification failed"),
               ("evaluatedAt", J.jNum (now : Int))])
          let timeline :=
            timelineOf notesObj1 ++ [J.jObj [("state", J.jStr "denied"), ("at", J.jNum (now : Int))]]
          let notesObj2 := setKey notesObj1 "timeline" (J.jArr timeline)
          let row' :=
            { row with status := "denied", notes := serializeNotes notesObj2, updated_at := some now }
          ⟨some row', [], true, none, true⟩
        else
          let credentialSubject := env.decode vcJwt
          let evaluation := evaluateExpression credentialSubject condition (some (J.jStr row.claim))
          let evaluationStatus :=
            (evalNormalizedResult resultB).getD (if evaluation.pass then "granted" else "denied")
          let finalReason : J :=
            match reasonB with
            | none => J.jStr evaluation.reason
            | some J.jNull => J.jStr evaluation.reason
            | some v => v
          let notesObj1 :=
            setKey notesObj "evaluation" (J.jObj
              [("status", J.jStr evaluationStatus),
               ("reason", finalReason),
               ("evaluatedAt", J.jNum (now : Int)),
               ("claimValues", J.jObj evaluation.values),
               ("condition", J.jStr (describeCondition condition))])
          let timeline :=
            timelineOf notesObj1 ++ [J.jObj [("state", J.jStr evaluationStatus), ("at", J.jNum (now : Int))]]
          let notesObj2 := setKey notesObj1 "timeline" (J.jArr timeline)
          let row' :=
            { row with status := evaluationStatus, notes := serializeNotes notesObj2, updated_at := some now }
          ⟨some row', [("access_request.updated", mapAccessRequestRow row')], true, none, true⟩

/-- An evaluate UPDATE applied to the row currently in the table: the SQL at
access.ts lines 588-593 and 623-628 sets exactly status, notes and
updated_at, leaving every other column as it stands. -/
def applyEvalWrite (current written : Row) : Row :=
  { current with status := written.status, notes := written.notes, updated_at := written.updated_at }

/-- Two concurrent Evaluate calls on the same id, interleaved so that both
SELECT the same snapshot `s0` before either UPDATE runs (nothing in the
route prevents this: there is no transaction, no compare-and-swap on
updated_at, no lock).  Each call computes its written row purely from the
snapshot; the first call's UPDATE lands, then the second call's UPDATE
overwrites the same columns.  Yields both handler outcomes and the row the
table finally holds. -/
def evalRace (env : Env) (s0 : Row) (r1 rs1 r2 rs2 : Option J) (t1 t2 : Nat) :
    HOut × HOut × Row :=
  let o1 := evaluateHandler env (some s0) r1 rs1 t1
  let o2 := evaluateHandler env (some s0) r2 rs2 t2
  let after1 :=
    if o1.wrote then
      match o1.row with
      | some w => applyEvalWrite s0 w
      | none => s0
    else s0
  let after2 :=
    if o2.wrote then
      match o2.row with
      | some w => applyEvalWrite after1 w
      | none => after1
    else after1
  (o1, o2, after2)

/-- Whether a remainder cannot extend a rendered number: empty or headed by a
non-digit.  Every delimiter the printer emits after a number qualifies. -/
def noDigitHead : List Char → Bool
  | [] => true
  | c :: _ => !isDigitC c

theorem isDigitC_ofNat {n : Nat} (h : n < 10) : isDigitC (Char.ofNat (48 + n)) = true := by
  have hall : ∀ m : Nat, m < 10 → isDigitC (Char.ofNat (48 + m)) = true := by decide
  exact hall n h

theorem digitVal_ofNat {n : Nat} (h : n < 10) : digitVal (Char.ofNat (48 + n)) = n := by
  have hall : ∀ m : Nat, m < 10 → digitVal (Char.ofNat (48 + m)) = m := by decide
  exact hall n h

theorem natChars_digits (n : Nat) : ∀ c ∈ natChars n, isDigitC c = true := by
  induction n using Nat.strongRecOn with
  | _ n ih =>
    rw [natChars]
    by_cases h : n < 10
    · simp only [if_pos h, List.mem_singleton]
      intro c hc
      subst hc
      exact isDigitC_ofNat h
    · simp only [if_neg h]
      intro c hc
      rcases List.mem_append.mp hc with hl | hr
      · exact ih (n / 10) (Nat.div_lt_self (by omega) (by omega)) c hl
      · rw [List.mem_singleton] at hr
        subst hr
        exact isDigitC_ofNat (Nat.mod_lt _ (by omega))

theorem natChars_ne_nil (n : Nat) : natChars n ≠ [] := by
  rw [natChars]
  by_cases h : n < 10 <;> simp [h]

theorem takeDigitRun_stop {rest : List Char} (h : noDigitHead rest = true) :
    takeDigitRun rest = ([], rest) := by
  cases rest with
  | nil => rfl
  | cons c t =>
    simp only [noDigitHead, Bool.not_eq_true'] at h
    simp [takeDigitRun, h]

theorem takeDigitRun_run (ds : List Char) (hds : ∀ c ∈ ds, isDigitC c = true)
    (rest : List Char) (hrest : takeDigitRun rest = ([], rest)) :
    takeDigitRun (ds ++ rest) = (ds, rest) := by
  induction ds with
  | nil => simpa using hrest
  | cons c t ih =>
    have hc := hds c (by simp)
    have ht := ih (fun x hx => hds x (by simp [hx]))
    simp [takeDigitRun, hc, ht]

theorem digitRunVal_snoc (ds : List Char) (c : Char) :
    digitRunVal (ds ++ [c]) = 10 * digitRunVal ds + digitVal c := by
  simp [digitRunVal, List.foldl_append]

theorem digitRunVal_natChars (n : Nat) : digitRunVal (natChars n) = n := by
  induction n using Nat.strongRecOn with
  | _ n ih =>
    rw [natChars]
    by_cases h : n < 10
    · simp only [if_pos h]
      simp [digitRunVal, digitVal_ofNat h]
    · simp only [if_neg h]
      rw [digitRunVal_snoc, ih (n / 10) (Nat.div_lt_self (by omega) (by omega)),
        digitVal_ofNat (Nat.mod_lt _ (by omega))]
      omega

theorem pDigits_natChars (n : Nat) (rest : List Char) (h : noDigitHead rest = true) :
    pDigits (natChars n ++ rest) = some (n, rest) := by
  have hrun := takeDigitRun_run (natChars n) (natChars_digits n) rest (takeDigitRun_stop h)
  obtain ⟨c, t, hct⟩ := List.exists_cons_of_ne_nil (natChars_ne_nil n)
  rw [pDigits, hrun, hct]
  have hval := digitRunVal_natChars n
  rw [hct] at hval
  simp [hval]

theorem hexDigitVal_hexCharOf {n : Nat} (h : n < 16) : hexDigitVal (hexCharOf n) = some n := by
  have hall : ∀ m : Nat, m < 16 → hexDigitVal (hexCharOf m) = some m := by decide
  exact hall n h

theorem pStrBody_escChar (c : Char) (r : List Char) :
    pStrBody (escChar c ++ r) = (pStrBody r).map (fun p => (c :: p.1, p.2)) := by
  by_cases h1 : c = '"'
  · subst h1; simp [escChar, pStrBody, escNamed]
  by_cases h2 : c = '\\'
  · subst h2; simp [escChar, pStrBody, escNamed, h1]
  by_cases h3 : c = '\x08'
  · subst h3; simp [escChar, pStrBody, escNamed, h1, h2]
  by_cases h4 : c = '\x0c'
  · subst h4; simp [escChar, pStrBody, escNamed, h1, h2, h3]
  by_cases h5 : c = '\n'
  · subst h5; simp [escChar, pStrBody, escNamed, h1, h2, h3, h4]
  by_cases h6 : c = '\r'
  · subst h6; simp [escChar, pStrBody, escNamed, h1, h2, h3, h4, h5]
  by_cases h7 : c = '\t'
  · subst h7; simp [escChar, pStrBody, escNamed, h1, h2, h3, h4, h5, h6]
  by_cases h8 : c.toNat < 32
  · have hesc : escChar c =
        ['\\', 'u', '0', '0', hexCharOf (c.toNat / 16), hexCharOf (c.toNat % 16)] := by
      simp [escChar, h1, h2, h3, h4, h5, h6, h7, h8]
    rw [hesc]
    have hhi : hexDigitVal (hexCharOf (c.toNat / 16)) = some (c.toNat / 16) :=
      hexDigitVal_hexCharOf (by omega)
    have hlo : hexDigitVal (hexCharOf (c.toNat % 16)) = some (c.toNat % 16) :=
      hexDigitVal_hexCharOf (Nat.mod_lt _ (by omega))
    have hz : hexDigitVal '0' = some 0 := by decide
    simp only [List.cons_append, List.nil_append, pStrBody, hz, hhi, hlo]
    have harith : 4096 * 0 + 256 * 0 + 16 * (c.toNat / 16) + c.toNat % 16 = c.toNat := by omega
    rw [harith, Char.ofNat_toNat]
    rfl
  · have hesc : escChar c = [c] := by
      simp [escChar, h1, h2, h3, h4, h5, h6, h7, h8]
    rw [hesc]
    rw [pStrBody.eq_def]
    simp [h1, h2]

theorem pStrBody_escBody (l rest : List Char) :
    pStrBody (escBody l ++ '"' :: rest) = some (l, rest) := by
  induction l with
  | nil =>
    rw [escBody, List.nil_append, pStrBody.eq_def]
    simp
  | cons c t ih =>
    rw [escBody, List.append_assoc, pStrBody_escChar, ih]
    rfl

theorem isDigitC_ne {c : Char} (h : isDigitC c = true) :
    c ≠ 'n' ∧ c ≠ 't' ∧ c ≠ 'f' ∧ c ≠ '"' ∧ c ≠ '-' ∧ c ≠ '[' ∧ c ≠ '{' ∧ c ≠ ']' ∧ c ≠ '}' := by
  refine ⟨?_, ?_, ?_, ?_, ?_, ?_, ?_, ?_, ?_⟩ <;>
    (intro hh; subst hh; exact absurd h (by decide))

theorem intChars_ne_nil (i : Int) : intChars i ≠ [] := by
  rw [intChars]
  by_cases h : i < 0
  · simp [h]
  · simp only [if_neg h]
    exact natChars_ne_nil _

/-- Every printed value starts with a character that closes neither an array
nor an object. -/
theorem printJ_cons (j : J) : ∃ c t, printJ j = c :: t ∧ c ≠ ']' ∧ c ≠ '}' := by
  cases j with
  | jNull => exact ⟨'n', ['u', 'l', 'l'], by simp [printJ], by decide, by decide⟩
  | jBool b =>
    cases b with
    | true => exact ⟨'t', ['r', 'u', 'e'], by simp [printJ], by decide, by decide⟩
    | false => exact ⟨'f', ['a', 'l', 's', 'e'], by simp [printJ], by decide, by decide⟩
  | jStr s => exact ⟨'"', escBody s.data ++ ['"'], by simp [printJ, strLit], by decide, by decide⟩
  | jArr es => exact ⟨'[', printItems es ++ [']'], by simp [printJ], by decide, by decide⟩
  | jObj fs => exact ⟨'{', printPairs fs ++ ['}'], by simp [printJ], by decide, by decide⟩
  | jNum i =>
    by_cases hneg : i < 0
    · exact ⟨'-', natChars i.natAbs, by simp [printJ, intChars, hneg], by decide, by decide⟩
    · obtain ⟨c, t, hct⟩ := List.exists_cons_of_ne_nil (natChars_ne_nil i.natAbs)
      have hdig : isDigitC c = true :=
        natChars_digits i.natAbs c (by rw [hct]; exact List.mem_cons_self _ _)
      obtain ⟨_, _, _, _, _, _, _, hbr, hbc⟩ := isDigitC_ne hdig
      exact ⟨c, t, by simp [printJ, intChars, hneg, hct], hbr, hbc⟩

theorem pValue_null (fuel : Nat) (rest : List Char) :
    pValue (fuel + 1) ('n' :: 'u' :: 'l' :: 'l' :: rest) = some (J.jNull, rest) := by
  simp [pValue]

theorem pValue_true (fuel : Nat) (rest : List Char) :
    pValue (fuel + 1) ('t' :: 'r' :: 'u' :: 'e' :: rest) = some (J.jBool true, rest) := by
  simp [pValue]

theorem pValue_false (fuel : Nat) (rest : List Char) :
    pValue (fuel + 1) ('f' :: 'a' :: 'l' :: 's' :: 'e' :: rest) = some (J.jBool false, rest) := by
  simp [pValue]

theorem pValue_strLit (fuel : Nat) (s : String) (rest : List Char) :
    pValue (fuel + 1) (strLit s ++ rest) = some (J.jStr s, rest) := by
  have harg : strLit s ++ rest = '"' :: (escBody s.data ++ '"' :: rest) := by
    simp [strLit]
  rw [harg]
  simp [pValue, pStrBody_escBody]

theorem pValue_intChars (i : Int) (fuel : Nat) (rest : List Char) (h : noDigitHead rest = true) :
    pValue (fuel + 1) (intChars i ++ rest) = some (J.jNum i, rest) := by
  by_cases hneg : i < 0
  · have harg : intChars i ++ rest = '-' :: (natChars i.natAbs ++ rest) := by
      simp [intChars, hneg]
    rw [harg]
    have hd := pDigits_natChars i.natAbs rest h
    have hval : (-(i.natAbs : Int)) = i := by omega
    simp [pValue, hd, hval]
    rw [abs_of_neg hneg, neg_neg]
  · obtain ⟨c, t, hct⟩ := List.exists_cons_of_ne_nil (natChars_ne_nil i.natAbs)
    have hdig : isDigitC c = true :=
      natChars_digits i.natAbs c (by rw [hct]; exact List.mem_cons_self _ _)
    obtain ⟨hn, ht, hf2, hq, hm, hlb, hlc, _, _⟩ := isDigitC_ne hdig
    have harg : intChars i ++ rest = c :: (t ++ rest) := by
      simp [intChars, hneg, hct]
    have hd : pDigits (c :: (t ++ rest)) = some (i.natAbs, rest) := by
      rw [← List.cons_append, ← hct]
      exact pDigits_natChars _ _ h
    rw [harg]
    simp only [pValue, if_neg hn, if_neg ht, if_neg hf2, if_neg hq, if_neg hm, hdig,
      if_pos rfl, hd, Option.map_some]
    have : ((i.natAbs : Nat) : Int) = i := by omega
    simp [this]

theorem printItems_cons (x : J) (xs : List J) :
    ∃ u, printItems (x :: xs) = printJ x ++ u := by
  cases xs with
  | nil => exact ⟨[], by simp [printItems]⟩
  | cons y ys => exact ⟨',' :: printItems (y :: ys), by simp [printItems]⟩

theorem pValue_arrStep (fuel : Nat) (x : J) (xs : List J) (rest : List Char) :
    pValue (fuel + 1) ('[' :: (printItems (x :: xs) ++ ']' :: rest))
      = (pItems fuel (printItems (x :: xs) ++ ']' :: rest)).map (fun p => (J.jArr p.1, p.2)) := by
  obtain ⟨c, t, hct, hbr, _⟩ := printJ_cons x
  obtain ⟨u, hu⟩ := printItems_cons x xs
  have harg : printItems (x :: xs) ++ ']' :: rest = c :: (t ++ u ++ ']' :: rest) := by
    rw [hu, hct]
    simp
  rw [harg]
  simp [pValue, hbr, (show isDigitC '[' = false by decide)]

theorem printPairs_cons (k : String) (v : J) (fs : List (String × J)) :
    ∃ u, printPairs ((k, v) :: fs) = '"' :: (escBody k.data ++ '"' :: ':' :: (printJ v ++ u)) := by
  cases fs with
  | nil => exact ⟨[], by simp [printPairs, strLit]⟩
  | cons q qs => exact ⟨',' :: printPairs (q :: qs), by simp [printPairs, strLit]⟩

theorem pValue_objStep (fuel : Nat) (kv : String × J) (fs : List (String × J)) (rest : List Char) :
    pValue (fuel + 1) ('{' :: (printPairs (kv :: fs) ++ '}' :: rest))
      = (pPairs fuel (printPairs (kv :: fs) ++ '}' :: rest)).map (fun p => (J.jObj p.1, p.2)) := by
  obtain ⟨k, v⟩ := kv
  obtain ⟨u, hu⟩ := printPairs_cons k v fs
  have harg : printPairs ((k, v) :: fs) ++ '}' :: rest
      = '"' :: (escBody k.data ++ '"' :: ':' :: (printJ v ++ u) ++ '}' :: rest) := by
    rw [hu]
    simp
  rw [harg]
  simp [pValue, (show isDigitC '{' = false by decide)]

-- The codec round trip, by mutual structural induction: a printed value,
-- followed by anything that cannot extend a number, parses back to itself,
-- whenever the fuel covers the printed length.
mutual
theorem rtValue : ∀ (j : J) (fuel : Nat) (rest : List Char),
    (printJ j).length ≤ fuel → noDigitHead rest = true →
    pValue fuel (printJ j ++ rest) = some (j, rest)
  | J.jNull, fuel, rest, hf, _ => by
    cases fuel with
    | zero => simp [printJ] at hf
    | succ f =>
      have harg : printJ J.jNull ++ rest = 'n' :: 'u' :: 'l' :: 'l' :: rest := by
        simp [printJ]
      rw [harg, pValue_null]
  | J.jBool true, fuel, rest, hf, _ => by
    cases fuel with
    | zero => simp [printJ] at hf
    | succ f =>
      have harg : printJ (J.jBool true) ++ rest = 't' :: 'r' :: 'u' :: 'e' :: rest := by
        simp [printJ]
      rw [harg, pValue_true]
  | J.jBool false, fuel, rest, hf, _ => by
    cases fuel with
    | zero => simp [printJ] at hf
    | succ f =>
      have harg : printJ (J.jBool false) ++ rest = 'f' :: 'a' :: 'l' :: 's' :: 'e' :: rest := by
        simp [printJ]
      rw [harg, pValue_false]
  | J.jNum i, fuel, rest, hf, hr => by
    cases fuel with
    | zero =>
      rw [Nat.le_zero, List.length_eq_zero] at hf
      have hpe : printJ (J.jNum i) = intChars i := rfl
      rw [hpe] at hf
      exact absurd hf (intChars_ne_nil i)
    | succ f => exact pValue_intChars i f rest hr
  | J.jStr s, fuel, rest, hf, _ => by
    cases fuel with
    | zero => simp [printJ, strLit] at hf
    | succ f => exact pValue_strLit f s rest
  | J.jArr [], fuel, rest, hf, _ => by
    cases fuel with
    | zero => simp [printJ] at hf
    | succ f =>
      have harg : printJ (J.jArr []) ++ rest = '[' :: ']' :: rest := by
        simp [printJ, printItems]
      rw [harg]
      simp [pValue, (show isDigitC '[' = false by decide)]
  | J.jArr (x :: xs), fuel, rest, hf, _ => by
    cases fuel with
    | zero => simp [printJ] at hf
    | succ f =>
      have harg : printJ (J.jArr (x :: xs)) ++ rest
          = '[' :: (printItems (x :: xs) ++ ']' :: rest) := by
        simp [printJ]
      have hlen : (printItems (x :: xs)).length + 1 ≤ f := by
        have hexp : (printJ (J.jArr (x :: xs))).length = (printItems (x :: xs)).length + 2 := by
          simp [printJ]
        omega
      rw [harg, pValue_arrStep, rtItems x xs f rest hlen]
      rfl
  | J.jObj [], fuel, rest, hf, _ => by
    cases fuel with
    | zero => simp [printJ] at hf
    | succ f =>
      have harg : printJ (J.jObj []) ++ rest = '{' :: '}' :: rest := by
        simp [printJ, printPairs]
      rw [harg]
      simp [pValue, (show isDigitC '{' = false by decide)]
  | J.jObj (kv :: fs), fuel, rest, hf, _ => by
    cases fuel with
    | zero => simp [printJ] at hf
    | succ f =>
      have harg : printJ (J.jObj (kv :: fs)) ++ rest
          = '{' :: (printPairs (kv :: fs) ++ '}' :: rest) := by
        simp [printJ]
      have hlen : (printPairs (kv :: fs)).length + 1 ≤ f := by
        have hexp : (printJ (J.jObj (kv :: fs))).length = (printPairs (kv :: fs)).length + 2 := by
          simp [printJ]
        omega
      rw [harg, pValue_objStep, rtPairs kv fs f rest hlen]
      rfl
termination_by j _ _ _ _ => sizeOf j
theorem rtItems : ∀ (x : J) (xs : List J) (fuel : Nat) (rest : List Char),
    (printItems (x :: xs)).length + 1 ≤ fuel →
    pItems fuel (printItems (x :: xs) ++ ']' :: rest) = some (x :: xs, rest)
  | x, [], fuel, rest, hf => by
    cases fuel with
    | zero => omega
    | succ f =>
      have h1 : (printJ x).length ≤ f := by
        have : printItems [x] = printJ x := by simp [printItems]
        rw [this] at hf
        omega
      have hv := rtValue x f (']' :: rest) h1 rfl
      have harg : printItems [x] ++ ']' :: rest = printJ x ++ ']' :: rest := by
        simp [printItems]
      rw [harg]
      simp [pItems, hv]
  | x, y :: ys, fuel, rest, hf => by
    cases fuel with
    | zero => omega
    | succ f =>
      obtain ⟨c, t, hct, _, _⟩ := printJ_cons x
      have hlx : 1 ≤ (printJ x).length := by rw [hct]; simp
      have hexp : (printItems (x :: y :: ys)).length
          = (printJ x).length + 1 + (printItems (y :: ys)).length := by
        simp [printItems]
        omega
      have h1 : (printJ x).length ≤ f := by omega
      have h2 : (printItems (y :: ys)).length + 1 ≤ f := by omega
      have hv := rtValue x f (',' :: (printItems (y :: ys) ++ ']' :: rest)) h1 rfl
      have harg : printItems (x :: y :: ys) ++ ']' :: rest
          = printJ x ++ ',' :: (printItems (y :: ys) ++ ']' :: rest) := by
        simp [printItems]
      rw [harg]
      simp [pItems, hv, rtItems y ys f rest h2]
termination_by x xs _ _ _ => sizeOf x + sizeOf xs
theorem rtPairs : ∀ (kv : String × J) (fs : List (String × J)) (fuel : Nat) (rest : List Char),
    (printPairs (kv :: fs)).length + 1 ≤ fuel →
    pPairs fuel (printPairs (kv :: fs) ++ '}' :: rest) = some (kv :: fs, rest)
  | (k, v), [], fuel, rest, hf => by
    cases fuel with
    | zero => omega
    | succ f =>
      have hlen : (printJ v).length ≤ f := by
        have : (printPairs [(k, v)]).length = (strLit k).length + 1 + (printJ v).length := by
          simp [printPairs]
          omega
        omega
      have hv := rtValue v f ('}' :: rest) hlen rfl
      have harg : printPairs [(k, v)] ++ '}' :: rest
          = '"' :: ((escBody k.data ++ '"' :: (':' :: (printJ v ++ '}' :: rest)))) := by
        simp [printPairs, strLit]
      rw [harg]
      have hstr := pStrBody_escBody k.data (':' :: (printJ v ++ '}' :: rest))
      simp [pPairs, hstr, hv]
  | (k, v), q :: qs, fuel, rest, hf => by
    cases fuel with
    | zero => omega
    | succ f =>
      have hsl : 2 ≤ (strLit k).length := by simp [strLit]
      have hexp : (printPairs ((k, v) :: q :: qs)).length
          = (strLit k).length + 1 + (printJ v).length + 1 + (printPairs (q :: qs)).length := by
        simp [printPairs]
        omega
      have h1 : (printJ v).length ≤ f := by omega
      have h2 : (printPairs (q :: qs)).length + 1 ≤ f := by omega
      have hv := rtValue v f (',' :: (printPairs (q :: qs) ++ '}' :: rest)) h1 rfl
      have harg : printPairs ((k, v) :: q :: qs) ++ '}' :: rest
          = '"' :: ((escBody k.data ++ '"' :: (':' :: (printJ v
              ++ ',' :: (printPairs (q :: qs) ++ '}' :: rest))))) := by
        simp [printPairs, strLit]
      rw [harg]
      have hstr := pStrBody_escBody k.data
        (':' :: (printJ v ++ ',' :: (printPairs (q :: qs) ++ '}' :: rest)))
      simp [pPairs, hstr, hv, rtPairs q qs f rest h2]
termination_by kv fs _ _ _ => sizeOf kv + sizeOf fs
end

/-- The storage round trip: everything `JSON.stringify` writes, `JSON.parse`
reads back structurally unchanged. -/
theorem parseJson_printJson (j : J) : parseJson (printJson j) = some j := by
  have hv := rtValue j ((printJ j).length + 1) [] (by omega) rfl
  rw [List.append_nil] at hv
  rw [parseJson, printJson]
  have hdata : (String.mk (printJ j)).data = printJ j := rfl
  have hlen : (String.mk (printJ j)).data.length = (printJ j).length := rfl
  rw [hdata, hlen, hv]

theorem evalChildren_map (subject : J) (entries : List J) (fb : Option J) :
    evalChildren subject entries fb
      = entries.map (fun e => evaluateExpression subject e (jCoalesce (jGet e "claim") fb)) := by
  induction entries with
  | nil => simp [evalChildren]
  | cons e rest ih => rw [evalChildren, ih, List.map_cons]

theorem evaluateExpression_allNode (subject : J) (children : List J) (fb : Option J) :
    (evaluateExpression subject (J.jObj [("all", J.jArr children)]) fb).pass
      = (evalChildren subject children fb).all (fun r => r.pass) := by
  rw [evaluateExpression] <;> simp [jGet, getField]

theorem evaluateExpression_anyNode (subject : J) (children : List J) (fb : Option J) :
    (evaluateExpression subject (J.jObj [("any", J.jArr children)]) fb).pass
      = (evalChildren subject children fb).any (fun r => r.pass) := by
  rw [evaluateExpression] <;> simp [jGet, getField]

theorem evaluateScalar_nonNumeric (value : J) (fs : List (String × J)) (op : String)
    (hop : op = ">=" ∨ op = ">" ∨ op = "<=" ∨ op = "<")
    (hres : jCoalesce (getField fs "op") (jCoalesce (getField fs "operator") (some (J.jStr "equals")))
      = some (J.jStr op))
    (hnan : jsNumber value = none ∨
      jsNumberOpt (jCoalesce (getField fs "value") (getField fs "expected")) = none) :
    evaluateScalar value (some (J.jObj fs))
      = ⟨false, "Non-numeric comparison for " ++ op ++ " operator"⟩ := by
  rcases hnan with hv | he
  · rcases hop with h | h | h | h <;> subst h <;>
      simp [evaluateScalar, jGet, hres, hv]
  · cases hjs : jsNumber value <;>
      rcases hop with h | h | h | h <;> subst h <;>
        simp [evaluateScalar, jGet, hres, he, hjs]

theorem evaluateExpression_scalarNode (subject : J) (fs : List (String × J)) (fb : Option J)
    (hall : getField fs "all" = none) (hany : getField fs "any" = none) :
    evaluateExpression subject (J.jObj fs) fb
      = (match jCoalesce (getField fs "claim") fb with
         | none => ⟨false, "No claim specified for condition", []⟩
         | some ck =>
           if jTruthy ck then
             match jGet subject (jsString ck) with
             | none => ⟨false, "Claim \"" ++ jsString ck ++ "\" not present in credential", []⟩
             | some value =>
               ⟨(evaluateScalar value (some (J.jObj fs))).pass,
                jsString ck ++ ": " ++ (evaluateScalar value (some (J.jObj fs))).reason,
                [(jsString ck, value)]⟩
           else ⟨false, "No claim specified for condition", []⟩) := by
  rw [evaluateExpression] <;> simp [jGet, hall, hany]

/-- The scalar condition of the spec's numeric-comparison test:
`Scalar(claim "age", op ">=", value 18)`. -/
def c5cond : J := J.jObj [("claim", J.jStr "age"), ("op", J.jStr ">="), ("value", J.jNum 18)]

/-- C5: for the numeric operators >=, >, <= and <, `evaluateScalar` coerces
both sides to numbers and, when either side fails to coerce, yields
pass=false with the reason naming the operator and stating a non-numeric
comparison; concretely, age 21 against `age >= 18` passes, age 17 fails, and
age "x" fails with a reason mentioning non-numeric. -/
theorem c5_numeric_operators :
    (∀ (value : J) (fs : List (String × J)) (op : String),
        (op = ">=" ∨ op = ">" ∨ op = "<=" ∨ op = "<") →
        jCoalesce (getField fs "op") (jCoalesce (getField fs "operator") (some (J.jStr "equals")))
          = some (J.jStr op) →
        (jsNumber value = none ∨
          jsNumberOpt (jCoalesce (getField fs "value") (getField fs "expected")) = none) →
        evaluateScalar value (some (J.jObj fs))
          = ⟨false, "Non-numeric comparison for " ++ op ++ " operator"⟩)
    ∧ (evaluateExpression (J.jObj [("age", J.jNum 21)]) c5cond none).pass = true
    ∧ (evaluateExpression (J.jObj [("age", J.jNum 17)]) c5cond none).pass = false
    ∧ evaluateExpression (J.jObj [("age", J.jStr "x")]) c5cond none
        = ⟨false, "age: Non-numeric comparison for >= operator", [("age", J.jStr "x")]⟩
    ∧ strContains "age: Non-numeric comparison for >= operator" "Non-numeric" = true := by
  have hsc : ∀ subject : J, evaluateExpression subject c5cond none
      = (match jGet subject "age" with
         | none => ⟨false, "Claim \"age\" not present in credential", []⟩
         | some value =>
           ⟨(evaluateScalar value (some c5cond)).pass,
            "age: " ++ (evaluateScalar value (some c5cond)).reason,
            [("age", value)]⟩) := by
    intro subject
    have h := evaluateExpression_scalarNode subject
      [("claim", J.jStr "age"), ("op", J.jStr ">="), ("value", J.jNum 18)] none rfl rfl
    rw [c5cond, h]
    simp [getField, jCoalesce, jTruthy, jsString]
  refine ⟨evaluateScalar_nonNumeric, ?_, ?_, ?_, ?_⟩
  · rw [hsc]
    simp only [jGet, getField]
    norm_num
    decide
  · rw [hsc]
    simp only [jGet, getField]
    norm_num
    decide
  · rw [hsc]
    simp only [jGet, getField]
    norm_num
    have hs : evaluateScalar (J.jStr "x") (some c5cond)
        = ⟨false, "Non-numeric comparison for >= operator"⟩ := by decide
    rw [hs]
    exact ⟨rfl, rfl⟩
  · decide

/-- C2: evaluating an `All` node yields the conjunction of its children's
verdicts and evaluating an `Any` node the disjunction, each child evaluated
with the shared fallback claim unless it carries its own `claim` field; this
holds for every claims map, every fallback and every finite child list,
empty and singleton lists included. -/
theorem c2_all_any_algebra :
    (∀ (subject : J) (children : List J) (fb : Option J),
      (evaluateExpression subject (J.jObj [("all", J.jArr children)]) fb).pass
        = children.all
            (fun e => (evaluateExpression subject e (jCoalesce (jGet e "claim") fb)).pass))
    ∧ (∀ (subject : J) (children : List J) (fb : Option J),
      (evaluateExpression subject (J.jObj [("any", J.jArr children)]) fb).pass
        = children.any
            (fun e => (evaluateExpression subject e (jCoalesce (jGet e "claim") fb)).pass)) := by
  constructor
  · intro subject children fb
    rw [evaluateExpression_allNode, evalChildren_map]
    induction children with
    | nil => simp
    | cons e t ih => simp [ih]
  · intro subject children fb
    rw [evaluateExpression_anyNode, evalChildren_map]
    induction children with
    | nil => simp
    | cons e t ih => simp [ih]

theorem getField_none_of_not_any {m : List (String × J)} {k : String}
    (h : m.any (fun p => p.1 = k) = false) : getField m k = none := by
  induction m with
  | nil => rfl
  | cons p rest ih =>
    obtain ⟨k1, w⟩ := p
    simp only [List.any_cons, Bool.or_eq_false_iff] at h
    rw [getField, ih h.2]
    simp only [decide_eq_false_iff_not] at h
    simp [h.1]

theorem getField_append_last (m : List (String × J)) (k k' : String) (v : J) :
    getField (m ++ [(k, v)]) k' = if k = k' then some v else getField m k' := by
  induction m with
  | nil =>
    simp [getField]
  | cons p rest ih =>
    obtain ⟨k1, w⟩ := p
    rw [List.cons_append, getField, ih, getField]
    by_cases hk : k = k'
    · simp [hk]
    · simp [hk]

theorem getField_replaceAll (m : List (String × J)) (k k' : String) (v : J) :
    getField (m.map (fun p => if p.1 = k then (k, v) else p)) k'
      = if k = k' ∧ m.any (fun p => p.1 = k) then some v else getField m k' := by
  induction m with
  | nil => simp [getField]
  | cons p rest ih =>
    obtain ⟨k1, w⟩ := p
    rw [List.map_cons]
    by_cases h1 : k1 = k
    · subst h1
      rw [if_pos rfl]
      rw [getField, ih, getField]
      by_cases hk : k1 = k'
      · subst hk
        by_cases hrest : rest.any (fun p => p.1 = k1)
        · simp [hrest]
        · simp only [hrest]
          rw [getField_none_of_not_any (Bool.not_eq_true _ ▸ hrest)]
          simp
      · simp [hk]
    · rw [if_neg h1]
      rw [getField, ih, getField]
      by_cases hk : k = k'
      · subst hk
        by_cases hrest : rest.any (fun p => p.1 = k)
        · simp [hrest, h1]
        · simp [hrest, h1]
      · simp [hk]

/-- Property write then read: the written key reads back the written value,
every other key is untouched. -/
theorem getField_setKey (m : List (String × J)) (k k' : String) (v : J) :
    getField (setKey m k v) k' = if k = k' then some v else getField m k' := by
  rw [setKey]
  by_cases hany : m.any (fun p => p.1 = k)
  · rw [if_pos hany, getField_replaceAll]
    by_cases hk : k = k'
    · rw [if_pos ⟨hk, hany⟩, if_pos hk]
    · rw [if_neg (fun hc => hk hc.1), if_neg hk]
  · rw [if_neg hany, getField_append_last]

theorem setKey_ne_nil (m : List (String × J)) (k : String) (v : J) :
    setKey m k v ≠ [] := by
  rw [setKey]
  by_cases hany : m.any (fun p => p.1 = k)
  · rw [if_pos hany]
    cases m with
    | nil => simp at hany
    | cons p rest => simp
  · rw [if_neg hany]
    simp

/-- Serialization written by `serializeNotes` reads back unchanged through
`notesToObject` (the storage round trip of the notes blob). -/
theorem notesToObject_serializeNotes (fields : List (String × J)) (h : fields ≠ []) :
    notesToObject (serializeNotes fields) = fields := by
  rw [serializeNotes, if_neg (by simpa using h), notesToObject]
  rw [parseJson_printJson]

theorem timelineOf_setKey_timeline (m : List (String × J)) (xs : List J) :
    timelineOf (setKey m "timeline" (J.jArr xs)) = xs := by
  rw [timelineOf, getField_setKey]
  simp

theorem timelineOf_setKey_other (m : List (String × J)) (k : String) (v : J) (h : k ≠ "timeline") :
    timelineOf (setKey m k v) = timelineOf m := by
  rw [timelineOf, getField_setKey, if_neg (by simpa using h), timelineOf]

/-- The notes object the verification-failure branch of Evaluate builds:
`notes.evaluation` set to the denial record, then the timeline extended by a
"denied" entry. -/
def vfNotes (row : Row) (now : Nat) : List (String × J) :=
  let n1 := setKey (notesToObject row.notes) "evaluation" (J.jObj
    [("status", J.jStr "denied"),
     ("reason", J.jStr "Credential verification failed"),
     ("evaluatedAt", J.jNum (now : Int))])
  setKey n1 "timeline" (J.jArr (timelineOf n1 ++ [tlEntry "denied" now]))

/-- Unfolding of the evaluate route on the verification-failure branch: the
row is UPDATEd to denied with the failure notes, the response is ok, and no
event is emitted. -/
theorem evaluateHandler_verifyFail (env : Env) (row : Row) (resultB reasonB : Option J) (now : Nat)
    (hbad : evalResultParamBad resultB = false)
    (hrp : jTruthyOpt (evalResponsePayload row) = true)
    (hvc : jTruthy (evalVcJwt env ((evalResponsePayload row).getD J.jNull)) = true)
    (hver : env.verify (evalVcJwt env ((evalResponsePayload row).getD J.jNull)) = false) :
    evaluateHandler env (some row) resultB reasonB now
      = { row := some { row with
            status := "denied"
            notes := serializeNotes (vfNotes row now)
            updated_at := some now }
          events := []
          ok := true
          error := none
          wrote := true } := by
  simp [evaluateHandler, vfNotes, tlEntry, hbad, hrp, hvc, hver]

/-- C1: when the stored request has a resolvable credential token and the
external verifier rejects it, Evaluate forces status "denied" with
`notes.evaluation.reason = "Credential verification failed"`, appends exactly
one timeline entry, and never consults the condition evaluator: the claim
quantifies over an arbitrary stored condition, and the final conjunct shows
the outcome is the same whatever condition text is stored. -/
theorem c1_verification_failure_short_circuit
    (env : Env) (row : Row) (resultB reasonB : Option J) (now : Nat)
    (hbad : evalResultParamBad resultB = false)
    (hrp : jTruthyOpt (evalResponsePayload row) = true)
    (hvc : jTruthy (evalVcJwt env ((evalResponsePayload row).getD J.jNull)) = true)
    (hver : env.verify (evalVcJwt env ((evalResponsePayload row).getD J.jNull)) = false) :
    ∃ row',
      (evaluateHandler env (some row) resultB reasonB now).row = some row' ∧
      (evaluateHandler env (some row) resultB reasonB now).ok = true ∧
      row'.status = "denied" ∧
      getField (notesToObject row'.notes) "evaluation" = some (J.jObj
        [("status", J.jStr "denied"),
         ("reason", J.jStr "Credential verification failed"),
         ("evaluatedAt", J.jNum (now : Int))]) ∧
      timelineOf (notesToObject row'.notes)
        = timelineOf (notesToObject row.notes) ++ [tlEntry "denied" now] ∧
      (∀ c : String,
        (evaluateHandler env (some { row with condition := c }) resultB reasonB now).row
          = some { row' with condition := c }) := by
  rw [evaluateHandler_verifyFail env row resultB reasonB now hbad hrp hvc hver]
  refine ⟨{ row with
      status := "denied"
      notes := serializeNotes (vfNotes row now)
      updated_at := some now }, rfl, rfl, rfl, ?_, ?_, ?_⟩
  · show getField (notesToObject (serializeNotes (vfNotes row now))) "evaluation" = _
    simp only [vfNotes]
    rw [notesToObject_serializeNotes _ (setKey_ne_nil _ _ _), getField_setKey,
      if_neg (by decide), getField_setKey, if_pos rfl]
  · show timelineOf (notesToObject (serializeNotes (vfNotes row now)))
        = timelineOf (notesToObject row.notes) ++ [tlEntry "denied" now]
    simp only [vfNotes]
    rw [notesToObject_serializeNotes _ (setKey_ne_nil _ _ _), timelineOf_setKey_timeline,
      timelineOf_setKey_other _ _ _ (by decide)]
  · intro c
    have hbr := evaluateHandler_verifyFail env { row with condition := c } resultB reasonB now
      hbad hrp hvc hver
    rw [hbr]
    rfl

/-- A fixture environment whose verifier rejects every credential. -/
def c1env : Env :=
  { verify := fun _ => false
    decode := fun _ => J.jObj []
    credLookup := fun _ => none }

/-- A fixture request row holding a responded request with an inline
credential token. -/
def c1row : Row :=
  { id := 1
    citizen_wallet := "0xc"
    verifier_wallet := "0xv"
    claim := "age"
    condition := "\x7b\"claim\":\"age\",\"op\":\">=\",\"value\":18\x7d"
    status := "responded"
    notes := none
    response_payload := some "\x7b\"vcJwt\":\"tok\"\x7d"
    created_at := 1
    updated_at := none
    responded_at := some 1 }

/-- Witness for C1 at a concrete request and environment. -/
theorem c1_witness :
    ∃ row',
      (evaluateHandler c1env (some c1row) none none 5).row = some row' ∧
      (evaluateHandler c1env (some c1row) none none 5).ok = true ∧
      row'.status = "denied" ∧
      getField (notesToObject row'.notes) "evaluation" = some (J.jObj
        [("status", J.jStr "denied"),
         ("reason", J.jStr "Credential verification failed"),
         ("evaluatedAt", J.jNum ((5 : Nat) : Int))]) ∧
      timelineOf (notesToObject row'.notes)
        = timelineOf (notesToObject c1row.notes) ++ [tlEntry "denied" 5] ∧
      (∀ c : String,
        (evaluateHandler c1env (some { c1row with condition := c }) none none 5).row
          = some { row' with condition := c }) :=
  c1_verification_failure_short_circuit c1env c1row none none 5 rfl (by decide) (by decide) rfl

/-- The notes object the challenge route builds. -/
def chNotes (row : Row) (msg : Option J) (now : Nat) : List (String × J) :=
  let msgVal := match msg with | none => J.jNull | some J.jNull => J.jNull | some v => v
  let n1 := setKey (notesToObject row.notes) "challenge"
    (J.jObj [("message", msgVal), ("issuedAt", J.jNum (now : Int))])
  setKey n1 "timeline" (J.jArr (timelineOf n1 ++ [tlEntry "challenge_sent" now]))

/-- The row the challenge route UPDATEs into the table. -/
def chRow (row : Row) (msg : Option J) (now : Nat) : Row :=
  { row with
    status := "challenge_sent"
    notes := serializeNotes (chNotes row msg now)
    updated_at := some now }

/-- Unfolding of the challenge route on an existing row. -/
theorem challengeHandler_some (row : Row) (msg : Option J) (now : Nat) :
    challengeHandler (some row) msg now
      = ⟨some (chRow row msg now),
         [("access_request.updated", mapAccessRequestRow (chRow row msg now))],
         true, none, true⟩ := by rfl

/-- The notes object the respond route builds. -/
def rsNotes (row : Row) (statusB : Option J) (now : Nat) : List (String × J) :=
  let n1 := setKey (notesToObject row.notes) "response"
    (J.jObj [("submittedAt", J.jNum (now : Int))])
  setKey n1 "timeline" (J.jArr (timelineOf n1 ++ [tlEntry (respondNextStatus statusB) now]))

/-- The row the respond route UPDATEs into the table. -/
def rsRow (row : Row) (payload statusB : Option J) (now : Nat) : Row :=
  { row with
    response_payload := toNullishJSON payload
    status := respondNextStatus statusB
    responded_at := some now
    updated_at := some now
    notes := serializeNotes (rsNotes row statusB now) }

/-- Unfolding of the respond route on an existing row and truthy payload. -/
theorem respondHandler_some (row : Row) (payload statusB : Option J) (now : Nat)
    (hp : jTruthyOpt payload = true) :
    respondHandler (some row) payload statusB now
      = ⟨some (rsRow row payload statusB now),
         [("access_request.updated", mapAccessRequestRow (rsRow row payload statusB now))],
         true, none, true⟩ := by
  unfold respondHandler
  rw [if_neg (by simp [hp])]
  rfl

/-- The condition-tree evaluation the verified path of Evaluate runs. -/
def evalSuccessEvaluation (env : Env) (row : Row) : EvalResult :=
  evaluateExpression (env.decode (evalVcJwt env ((evalResponsePayload row).getD J.jNull)))
    (evalCondition row) (some (J.jStr row.claim))

/-- The final status of the verified path: the caller's override when
present, else the evaluator's verdict. -/
def evalSuccessStatus (env : Env) (row : Row) (resultB : Option J) : String :=
  (evalNormalizedResult resultB).getD
    (if (evalSuccessEvaluation env row).pass then "granted" else "denied")

/-- The reason the verified path records: the caller's override unless
nullish, else the evaluator's reason. -/
def evalSuccessReason (env : Env) (row : Row) (reasonB : Option J) : J :=
  match reasonB with
  | none => J.jStr (evalSuccessEvaluation env row).reason
  | some J.jNull => J.jStr (evalSuccessEvaluation env row).reason
  | some v => v

/-- The `notes.evaluation` object the verified path stores. -/
def evalSuccessObj (env : Env) (row : Row) (resultB reasonB : Option J) (now : Nat) : J :=
  J.jObj
    [("status", J.jStr (evalSuccessStatus env row resultB)),
     ("reason", evalSuccessReason env row reasonB),
     ("evaluatedAt", J.jNum (now : Int)),
     ("claimValues", J.jObj (evalSuccessEvaluation env row).values),
     ("condition", J.jStr (describeCondition (evalCondition row)))]

/-- The row either write path of Evaluate stores: status `s`, the notes
extended with `evaluation` and one timeline entry, updated_at bumped. -/
def evalWrittenRow (row : Row) (s : String) (evObj : J) (now : Nat) : Row :=
  let n1 := setKey (notesToObject row.notes) "evaluation" evObj
  { row with
    status := s
    notes := serializeNotes (setKey n1 "timeline" (J.jArr (timelineOf n1 ++ [tlEntry s now])))
    updated_at := some now }

/-- Unfolding of the evaluate route on the verified path: the condition tree
decides (unless overridden), the row is UPDATEd and exactly one
`access_request.updated` event is emitted. -/
theorem evaluateHandler_verified (env : Env) (row : Row) (resultB reasonB : Option J) (now : Nat)
    (hbad : evalResultParamBad resultB = false)
    (hrp : jTruthyOpt (evalResponsePayload row) = true)
    (hvc : jTruthy (evalVcJwt env ((evalResponsePayload row).getD J.jNull)) = true)
    (hver : env.verify (evalVcJwt env ((evalResponsePayload row).getD J.jNull)) = true) :
    evaluateHandler env (some row) resultB reasonB now
      = ⟨some (evalWrittenRow row (evalSuccessStatus env row resultB)
            (evalSuccessObj env row resultB reasonB now) now),
         [("access_request.updated",
            mapAccessRequestRow (evalWrittenRow row (evalSuccessStatus env row resultB)
              (evalSuccessObj env row resultB reasonB now) now))],
         true, none, true⟩ := by
  unfold evaluateHandler
  rw [if_neg (by simp [hbad])]
  show (let notesObj := notesToObject row.notes
    let condition := evalCondition row
    let responsePayload := evalResponsePayload row
    if ¬ jTruthyOpt responsePayload then
      ⟨some row, [], false, some "No citizen response available", false⟩
    else
      let rp := responsePayload.getD J.jNull
      let vcJwt := evalVcJwt env rp
      if ¬ jTruthy vcJwt then
        ⟨some row, [], false, some "No verifiable credential supplied in response", false⟩
      else if ¬ env.verify vcJwt then
        let notesObj1 :=
          setKey notesObj "evaluation" (J.jObj
            [("status", J.jStr "denied"),
             ("reason", J.jStr "Credential verification failed"),
             ("evaluatedAt", J.jNum (now : Int))])
        let timeline :=
          timelineOf notesObj1 ++ [J.jObj [("state", J.jStr "denied"), ("at", J.jNum (now : Int))]]
        let notesObj2 := setKey notesObj1 "timeline" (J.jArr timeline)
        let row' :=
          { row with status := "denied", notes := serializeNotes notesObj2, updated_at := some now }
        ⟨some row', [], true, none, true⟩
      else
        let credentialSubject := env.decode vcJwt
        let evaluation := evaluateExpression credentialSubject condition (some (J.jStr row.claim))
        let evaluationStatus :=
          (evalNormalizedResult resultB).getD (if evaluation.pass then "granted" else "denied")
        let finalReason : J :=
          match reasonB with
          | none => J.jStr evaluation.reason
          | some J.jNull => J.jStr evaluation.reason
          | some v => v
        let notesObj1 :=
          setKey notesObj "evaluation" (J.jObj
            [("status", J.jStr evaluationStatus),
             ("reason", finalReason),
             ("evaluatedAt", J.jNum (now : Int)),
             ("claimValues", J.jObj evaluation.values),
             ("condition", J.jStr (describeCondition condition))])
        let timeline :=
          timelineOf notesObj1 ++ [J.jObj [("state", J.jStr evaluationStatus), ("at", J.jNum (now : Int))]]
        let notesObj2 := setKey notesObj1 "timeline" (J.jArr timeline)
        let row' :=
          { row with status := evaluationStatus, notes := serializeNotes notesObj2, updated_at := some now }
        ⟨some row', [("access_request.updated", mapAccessRequestRow row')], true, none, true⟩ : HOut) = _
  simp only []
  rw [if_neg (by simp [hrp])]
  rw [if_neg (by simp [hvc])]
  rw [if_neg (by simp [hver])]
  rfl

/-- Appending one binding under another key leaves the timeline read alone. -/
theorem timelineOf_append_single (m : List (String × J)) (k : String) (v : J)
    (h : k ≠ "timeline") : timelineOf (m ++ [(k, v)]) = timelineOf m := by
  rw [timelineOf, getField_append_last, if_neg h, timelineOf]

theorem createBaseNotes_ne_nil (body : CreateBody) (now : Nat) :
    createBaseNotes body now ≠ [] := by
  have hb : (match createPolicyInfo body.policy with
      | some pf => [("timeline", J.jArr [tlEntry "requested" now])] ++ [("policy", J.jObj pf)]
      | none => [("timeline", J.jArr [tlEntry "requested" now])]) ≠ [] := by
    split <;> simp
  simp only [createBaseNotes]
  split
  · split
    · simp
    · exact hb
  · exact hb

/-- The notes of a freshly created request carry exactly the one
"requested" timeline entry. -/
theorem timelineOf_createBaseNotes (body : CreateBody) (now : Nat) :
    timelineOf (createBaseNotes body now) = [tlEntry "requested" now] := by
  have hb : timelineOf (match createPolicyInfo body.policy with
      | some pf => [("timeline", J.jArr [tlEntry "requested" now])] ++ [("policy", J.jObj pf)]
      | none => [("timeline", J.jArr [tlEntry "requested" now])]) = [tlEntry "requested" now] := by
    split
    · rw [timelineOf_append_single _ _ _ (by decide)]; rfl
    · rfl
  simp only [createBaseNotes]
  split
  · split
    · rw [timelineOf_append_single _ _ _ (by decide)]; exact hb
    · exact hb
  · exact hb

/-- Unfolding of the create route on valid input. -/
theorem createHandler_some (body : CreateBody) (now newId : Nat) (cw vw claimStr : String)
    (h1 : truthyStrField body.citizenWallet = some cw)
    (h2 : truthyStrField body.verifierWallet = some vw)
    (h3 : jTruthyOpt body.condition = true)
    (h4 : createPrimaryClaim body = some claimStr) :
    createHandler body now newId
      = { row := some (createRow body cw vw claimStr now newId)
          events := [("access_request.created",
            mapAccessRequestRow (createRow body cw vw claimStr now newId))]
          ok := true
          error := none
          wrote := true } := by
  unfold createHandler
  simp only [h1, h2, h4]
  rw [if_neg (by simp [h3])]

/-- C10: the respond route persists any caller-supplied status string
verbatim — "responded" is only the default for a non-string field — so the
stored status is not restricted to the declared state-machine values and a
caller of Respond can set any status, including "granted". -/
theorem c10_respond_status_passthrough :
    (∀ s : String, respondNextStatus (some (J.jStr s)) = s)
  ∧ (∀ sb : Option J, (∀ s : String, sb ≠ some (J.jStr s)) → respondNextStatus sb = "responded")
  ∧ (∀ (row : Row) (payload : Option J) (s : String) (now : Nat),
      jTruthyOpt payload = true →
      (respondHandler (some row) payload (some (J.jStr s)) now).row.map Row.status = some s
      ∧ (respondHandler (some row) payload (some (J.jStr s)) now).ok = true
      ∧ (respondHandler (some row) payload (some (J.jStr s)) now).wrote = true)
  ∧ (∀ (row : Row) (payload : Option J) (now : Nat),
      jTruthyOpt payload = true →
      (respondHandler (some row) payload none now).row.map Row.status = some "responded") := by
  refine ⟨fun s => rfl, ?_, ?_, ?_⟩
  · intro sb h
    match sb with
    | none => rfl
    | some J.jNull => rfl
    | some (J.jBool b) => rfl
    | some (J.jNum n) => rfl
    | some (J.jStr s) => exact absurd rfl (h s)
    | some (J.jArr xs) => rfl
    | some (J.jObj fs) => rfl
  · intro row payload s now hp
    rw [respondHandler_some row payload (some (J.jStr s)) now hp]
    exact ⟨rfl, rfl, rfl⟩
  · intro row payload now hp
    rw [respondHandler_some row payload none now hp]
    rfl

/-- The respond route always stamps responded_at with the current time —
also on a request that already carries one — while created_at is preserved
and updated_at is bumped; the challenge route leaves responded_at and
created_at alone. -/
theorem c7_responded_at_overwritten :
    (∀ (row : Row) (payload statusB : Option J) (now : Nat),
      jTruthyOpt payload = true →
      (respondHandler (some row) payload statusB now).row
        = some (rsRow row payload statusB now))
  ∧ (∀ (row : Row) (payload statusB : Option J) (now : Nat),
      (rsRow row payload statusB now).responded_at = some now
      ∧ (rsRow row payload statusB now).created_at = row.created_at
      ∧ (rsRow row payload statusB now).updated_at = some now
      ∧ (rsRow row payload statusB now).id = row.id)
  ∧ (∀ (row : Row) (msg : Option J) (now : Nat),
      (chRow row msg now).responded_at = row.responded_at
      ∧ (chRow row msg now).created_at = row.created_at
      ∧ (chRow row msg now).updated_at = some now) := by
  refine ⟨?_, ?_, ?_⟩
  · intro row payload statusB now hp
    rw [respondHandler_some row payload statusB now hp]
  · intro row payload statusB now
    exact ⟨rfl, rfl, rfl, rfl⟩
  · intro row msg now
    exact ⟨rfl, rfl, rfl⟩

/-- Counterexample to C7 as stated: a request whose responded_at is already
set (to 1) is responded to again at time 9 and the stored responded_at
moves to 9 — a later Respond does not leave it unchanged. -/
theorem c7_counterexample :
    c1row.responded_at = some 1
  ∧ (respondHandler (some c1row) (some (J.jStr "pp")) none 9).row.map Row.responded_at
      = some (some 9)
  ∧ (respondHandler (some c1row) (some (J.jStr "pp")) none 9).ok = true
  ∧ some (9 : Nat) ≠ some (1 : Nat) := by
  refine ⟨rfl, ?_, ?_, by decide⟩
  · rw [respondHandler_some c1row (some (J.jStr "pp")) none 9 (by decide)]
    rfl
  · rw [respondHandler_some c1row (some (J.jStr "pp")) none 9 (by decide)]

/-- C4: event emission per route.  Create, Challenge and Respond emit
exactly one event exactly when they write, and the read-only listing emits
none; but the Evaluate branch that fails credential verification UPDATEs
the row (wrote = true) while emitting no event at all — only the verified
Evaluate path emits its `access_request.updated`. -/
theorem c4_event_emission :
    (∀ (body : CreateBody) (now newId : Nat),
      (createHandler body now newId).events.map Prod.fst
        = if (createHandler body now newId).wrote then ["access_request.created"] else [])
  ∧ (∀ (store : Option Row) (msg : Option J) (now : Nat),
      (challengeHandler store msg now).events.map Prod.fst
        = if (challengeHandler store msg now).wrote then ["access_request.updated"] else [])
  ∧ (∀ (store : Option Row) (payload statusB : Option J) (now : Nat),
      (respondHandler store payload statusB now).events.map Prod.fst
        = if (respondHandler store payload statusB now).wrote then ["access_request.updated"] else [])
  ∧ (∀ (rows : List Row) (cw vw sq : Option String),
      (listHandler rows cw vw sq).2.1 = [])
  ∧ (∀ (env : Env) (row : Row) (resultB reasonB : Option J) (now : Nat),
      evalResultParamBad resultB = false →
      jTruthyOpt (evalResponsePayload row) = true →
      jTruthy (evalVcJwt env ((evalResponsePayload row).getD J.jNull)) = true →
      env.verify (evalVcJwt env ((evalResponsePayload row).getD J.jNull)) = false →
      (evaluateHandler env (some row) resultB reasonB now).wrote = true
      ∧ (evaluateHandler env (some row) resultB reasonB now).events = [])
  ∧ (∀ (env : Env) (row : Row) (resultB reasonB : Option J) (now : Nat),
      evalResultParamBad resultB = false →
      jTruthyOpt (evalResponsePayload row) = true →
      jTruthy (evalVcJwt env ((evalResponsePayload row).getD J.jNull)) = true →
      env.verify (evalVcJwt env ((evalResponsePayload row).getD J.jNull)) = true →
      (evaluateHandler env (some row) resultB reasonB now).events.map Prod.fst
        = ["access_request.updated"]
      ∧ (evaluateHandler env (some row) resultB reasonB now).wrote = true) := by
  refine ⟨?_, ?_, ?_, ?_, ?_, ?_⟩
  · intro body now newId
    unfold createHandler
    split
    · rfl
    split
    · rfl
    split
    · rfl
    split
    · rfl
    · rfl
  · intro store msg now
    unfold challengeHandler
    split
    · rfl
    · rfl
  · intro store payload statusB now
    unfold respondHandler
    split
    · rfl
    split
    · rfl
    · rfl
  · intro rows cw vw sq
    unfold listHandler
    split
    · rfl
    · rfl
  · intro env row resultB reasonB now hbad hrp hvc hver
    rw [evaluateHandler_verifyFail env row resultB reasonB now hbad hrp hvc hver]
    exact ⟨rfl, rfl⟩
  · intro env row resultB reasonB now hbad hrp hvc hver
    rw [evaluateHandler_verified env row resultB reasonB now hbad hrp hvc hver]
    exact ⟨rfl, rfl⟩

/-- Counterexample to C4 as stated: at a concrete request and a rejecting
verifier, the verification-failure completion of Evaluate mutates the row
(it writes status "denied") yet emits no event. -/
theorem c4_counterexample :
    (evaluateHandler c1env (some c1row) none none 5).wrote = true
  ∧ (evaluateHandler c1env (some c1row) none none 5).events = []
  ∧ (evaluateHandler c1env (some c1row) none none 5).ok = true
  ∧ (evaluateHandler c1env (some c1row) none none 5).row.map Row.status = some "denied" := by
  rw [evaluateHandler_verifyFail c1env c1row none none 5 rfl (by decide) (by decide) rfl]
  exact ⟨rfl, rfl, rfl, rfl⟩

/-- Unfolding of the evaluate route when the stored request carries no
usable citizen response: error out, touch nothing. -/
theorem evaluateHandler_noResponse (env : Env) (row : Row) (resultB reasonB : Option J) (now : Nat)
    (hbad : evalResultParamBad resultB = false)
    (hrp : jTruthyOpt (evalResponsePayload row) = false) :
    evaluateHandler env (some row) resultB reasonB now
      = { row := some row
          events := []
          ok := false
          error := some "No citizen response available"
          wrote := false } := by
  simp [evaluateHandler, hbad, hrp]

/-- Unfolding of the evaluate route when no verifiable credential can be
resolved from the response: error out, touch nothing. -/
theorem evaluateHandler_noVc (env : Env) (row : Row) (resultB reasonB : Option J) (now : Nat)
    (hbad : evalResultParamBad resultB = false)
    (hrp : jTruthyOpt (evalResponsePayload row) = true)
    (hvc : jTruthy (evalVcJwt env ((evalResponsePayload row).getD J.jNull)) = false) :
    evaluateHandler env (some row) resultB reasonB now
      = { row := some row
          events := []
          ok := false
          error := some "No verifiable credential supplied in response"
          wrote := false } := by
  simp [evaluateHandler, hbad, hrp, hvc]

/-- Every run of the create route either fails without a row, an event or a
write, or succeeds on validated inputs and inserts `createRow`. -/
theorem createHandler_cases (body : CreateBody) (now newId : Nat) :
    ((createHandler body now newId).ok = false
      ∧ (createHandler body now newId).row = none
      ∧ (createHandler body now newId).events = []
      ∧ (createHandler body now newId).wrote = false)
    ∨ (∃ cw vw claimStr,
        truthyStrField body.citizenWallet = some cw
        ∧ truthyStrField body.verifierWallet = some vw
        ∧ jTruthyOpt body.condition = true
        ∧ createPrimaryClaim body = some claimStr
        ∧ createHandler body now newId
            = { row := some (createRow body cw vw claimStr now newId)
                events := [("access_request.created",
                  mapAccessRequestRow (createRow body cw vw claimStr now newId))]
                ok := true
                error := none
                wrote := true }) := by
  rcases h1 : truthyStrField body.citizenWallet with _ | cw
  · left
    unfold createHandler
    rw [h1]
    exact ⟨rfl, rfl, rfl, rfl⟩
  rcases h2 : truthyStrField body.verifierWallet with _ | vw
  · left
    unfold createHandler
    rw [h1, h2]
    exact ⟨rfl, rfl, rfl, rfl⟩
  by_cases h3 : jTruthyOpt body.condition = true
  · rcases h4 : createPrimaryClaim body with _ | claimStr
    · left
      unfold createHandler
      simp only [h1, h2, h4]
      rw [if_neg (by simp [h3])]
      exact ⟨rfl, rfl, rfl, rfl⟩
    · exact Or.inr ⟨cw, vw, claimStr, rfl, rfl, h3, rfl,
        createHandler_some body now newId cw vw claimStr h1 h2 h3 h4⟩
  · left
    unfold createHandler
    simp only [h1, h2]
    rw [if_pos (by simp [h3])]
    exact ⟨rfl, rfl, rfl, rfl⟩

/-- C3: per mutating operation the timeline grows by exactly one entry —
create starts it at one, and challenge, respond and both evaluate write
paths append one — but the status transitions are unguarded: challenge
stamps "challenge_sent" on any existing row whatever its current status, so
the status can move backward (see the granted-row counterexample). -/
theorem c3_timeline_growth_status_unguarded :
    (∀ (body : CreateBody) (now newId : Nat) (r : Row),
      (createHandler body now newId).row = some r →
      timelineOf (notesToObject r.notes) = [tlEntry "requested" now]
      ∧ r.status = "requested")
  ∧ (∀ (row : Row) (msg : Option J) (now : Nat),
      (challengeHandler (some row) msg now).row = some (chRow row msg now)
      ∧ timelineOf (notesToObject (chRow row msg now).notes)
          = timelineOf (notesToObject row.notes) ++ [tlEntry "challenge_sent" now]
      ∧ (chRow row msg now).status = "challenge_sent")
  ∧ (∀ (row : Row) (payload statusB : Option J) (now : Nat),
      jTruthyOpt payload = true →
      (respondHandler (some row) payload statusB now).row = some (rsRow row payload statusB now)
      ∧ timelineOf (notesToObject (rsRow row payload statusB now).notes)
          = timelineOf (notesToObject row.notes) ++ [tlEntry (respondNextStatus statusB) now])
  ∧ (∀ (row : Row) (s : String) (obj : J) (now : Nat),
      timelineOf (notesToObject (evalWrittenRow row s obj now).notes)
        = timelineOf (notesToObject row.notes) ++ [tlEntry s now]
      ∧ (evalWrittenRow row s obj now).status = s)
  ∧ (∀ (row : Row) (now : Nat),
      timelineOf (notesToObject (serializeNotes (vfNotes row now)))
        = timelineOf (notesToObject row.notes) ++ [tlEntry "denied" now]) := by
  refine ⟨?_, ?_, ?_, ?_, ?_⟩
  · intro body now newId r hr
    rcases createHandler_cases body now newId with ⟨-, hrow, -, -⟩ | ⟨cw, vw, cl, -, -, -, -, heq⟩
    · rw [hrow] at hr
      exact absurd hr (by simp)
    · rw [heq] at hr
      obtain rfl := Option.some_injective _ hr.symm
      refine ⟨?_, rfl⟩
      show timelineOf (notesToObject (serializeNotes (createBaseNotes body now))) = _
      rw [notesToObject_serializeNotes _ (createBaseNotes_ne_nil body now),
        timelineOf_createBaseNotes]
  · intro row msg now
    refine ⟨by rw [challengeHandler_some], ?_, rfl⟩
    show timelineOf (notesToObject (serializeNotes (chNotes row msg now))) = _
    simp only [chNotes]
    rw [notesToObject_serializeNotes _ (setKey_ne_nil _ _ _), timelineOf_setKey_timeline,
      timelineOf_setKey_other _ _ _ (by decide)]
  · intro row payload statusB now hp
    refine ⟨by rw [respondHandler_some row payload statusB now hp], ?_⟩
    show timelineOf (notesToObject (serializeNotes (rsNotes row statusB now))) = _
    simp only [rsNotes]
    rw [notesToObject_serializeNotes _ (setKey_ne_nil _ _ _), timelineOf_setKey_timeline,
      timelineOf_setKey_other _ _ _ (by decide)]
  · intro row s obj now
    refine ⟨?_, rfl⟩
    show timelineOf (notesToObject (serializeNotes
      (setKey (setKey (notesToObject row.notes) "evaluation" obj) "timeline"
        (J.jArr (timelineOf (setKey (notesToObject row.notes) "evaluation" obj)
          ++ [tlEntry s now]))))) = _
    rw [notesToObject_serializeNotes _ (setKey_ne_nil _ _ _), timelineOf_setKey_timeline,
      timelineOf_setKey_other _ _ _ (by decide)]
  · intro row now
    simp only [vfNotes]
    rw [notesToObject_serializeNotes _ (setKey_ne_nil _ _ _), timelineOf_setKey_timeline,
      timelineOf_setKey_other _ _ _ (by decide)]

/-- A fixture row already in the terminal "granted" state. -/
def c3row : Row :=
  { c1row with status := "granted" }

/-- Counterexample to C3 as stated: challenging a granted request succeeds
and moves its status back to "challenge_sent". -/
theorem c3_counterexample :
    c3row.status = "granted"
  ∧ (challengeHandler (some c3row) none 5).ok = true
  ∧ (challengeHandler (some c3row) none 5).row.map Row.status = some "challenge_sent" := by
  rw [challengeHandler_some c3row none 5]
  exact ⟨rfl, rfl, rfl⟩

/-- C6: every structural failure of a route — missing wallets, condition or
claim on create, missing row on challenge/respond/evaluate, missing payload
on respond, a missing response or credential on evaluate — reports the
error, stores nothing, leaves the addressed row exactly as it was and emits
no event. -/
theorem c6_structural_errors_no_mutation :
    (∀ (body : CreateBody) (now newId : Nat),
      (createHandler body now newId).ok = false →
      (createHandler body now newId).row = none
      ∧ (createHandler body now newId).events = []
      ∧ (createHandler body now newId).wrote = false)
  ∧ (∀ (store : Option Row) (msg : Option J) (now : Nat),
      (challengeHandler store msg now).ok = false →
      (challengeHandler store msg now).row = store
      ∧ (challengeHandler store msg now).events = []
      ∧ (challengeHandler store msg now).wrote = false)
  ∧ (∀ (store : Option Row) (payload statusB : Option J) (now : Nat),
      (respondHandler store payload statusB now).ok = false →
      (respondHandler store payload statusB now).row = store
      ∧ (respondHandler store payload statusB now).events = []
      ∧ (respondHandler store payload statusB now).wrote = false)
  ∧ (∀ (env : Env) (store : Option Row) (resultB reasonB : Option J) (now : Nat),
      (evaluateHandler env store resultB reasonB now).ok = false →
      (evaluateHandler env store resultB reasonB now).row = store
      ∧ (evaluateHandler env store resultB reasonB now).events = []
      ∧ (evaluateHandler env store resultB reasonB now).wrote = false) := by
  refine ⟨?_, ?_, ?_, ?_⟩
  · intro body now newId h
    rcases createHandler_cases body now newId with ⟨-, hrow, hev, hw⟩ | ⟨cw, vw, cl, -, -, -, -, heq⟩
    · exact ⟨hrow, hev, hw⟩
    · rw [heq] at h
      simp at h
  · intro store msg now h
    match store with
    | none => exact ⟨rfl, rfl, rfl⟩
    | some row =>
      rw [challengeHandler_some row msg now] at h
      simp at h
  · intro store payload statusB now h
    by_cases hp : jTruthyOpt payload = true
    · match store with
      | none =>
        unfold respondHandler
        rw [if_neg (by simp [hp])]
        exact ⟨rfl, rfl, rfl⟩
      | some row =>
        rw [respondHandler_some row payload statusB now hp] at h
        simp at h
    · unfold respondHandler
      rw [if_pos (by simp [hp])]
      exact ⟨rfl, rfl, rfl⟩
  · intro env store resultB reasonB now h
    by_cases hbad : evalResultParamBad resultB = true
    · unfold evaluateHandler
      rw [if_pos hbad]
      exact ⟨rfl, rfl, rfl⟩
    · have hbad' : evalResultParamBad resultB = false := by simpa using hbad
      match store with
      | none =>
        unfold evaluateHandler
        rw [if_neg (by simp [hbad'])]
        exact ⟨rfl, rfl, rfl⟩
      | some row =>
        by_cases hrp : jTruthyOpt (evalResponsePayload row) = true
        · by_cases hvc : jTruthy (evalVcJwt env ((evalResponsePayload row).getD J.jNull)) = true
          · by_cases hver : env.verify (evalVcJwt env ((evalResponsePayload row).getD J.jNull)) = true
            · rw [evaluateHandler_verified env row resultB reasonB now hbad' hrp hvc hver] at h
              simp at h
            · have hver' : env.verify (evalVcJwt env ((evalResponsePayload row).getD J.jNull)) = false := by
                simpa using hver
              rw [evaluateHandler_verifyFail env row resultB reasonB now hbad' hrp hvc hver'] at h
              simp at h
          · have hvc' : jTruthy (evalVcJwt env ((evalResponsePayload row).getD J.jNull)) = false := by
              simpa using hvc
            rw [evaluateHandler_noVc env row resultB reasonB now hbad' hrp hvc']
            exact ⟨rfl, rfl, rfl⟩
        · have hrp' : jTruthyOpt (evalResponsePayload row) = false := by simpa using hrp
          rw [evaluateHandler_noResponse env row resultB reasonB now hbad' hrp']
          exact ⟨rfl, rfl, rfl⟩

/-- C8: the round trip that does hold: a condition column holding the JSON
print of a structured tree parses back to that tree, and a notes column
written by serializeNotes reads back as exactly the serialized fields.  The
accepted opaque string condition form is NOT round-tripped (see the
counterexample): the mapper replaces it by null. -/
theorem c8_round_trip :
    (∀ (row : Row) (c : J), row.condition = printJson c →
      (mapAccessRequestRow row).condition = c)
  ∧ (∀ (row : Row) (fields : List (String × J)), fields ≠ [] →
      row.notes = serializeNotes fields →
      (mapAccessRequestRow row).notes = J.jObj fields) := by
  constructor
  · intro row c h
    show (parseJson row.condition).getD J.jNull = c
    rw [h, parseJson_printJson]
    rfl
  · intro row fields hne h
    show (match row.notes with
      | none => J.jNull
      | some s =>
        match parseJson s with
        | some J.jNull => J.jStr s
        | none => J.jStr s
        | some v => v) = J.jObj fields
    rw [h, serializeNotes, if_neg (by simpa using hne)]
    simp [parseJson_printJson]

/-- A create request carrying the accepted opaque string condition form. -/
def c8body : CreateBody :=
  { citizenWallet := some (J.jStr "0xC1")
    verifierWallet := some (J.jStr "0xV1")
    claim := some (J.jStr "employment")
    condition := some (J.jStr "employed")
    policy := none
    notes := none }

/-- Counterexample to C8 as stated: the create route accepts the opaque
string condition "employed" and stores it verbatim, but deserializing the
stored row maps the condition to null — the field is lost, not
structurally identical. -/
theorem c8_counterexample :
    (createHandler c8body 0 7).ok = true
  ∧ (createHandler c8body 0 7).row.map Row.condition = some "employed"
  ∧ (createHandler c8body 0 7).row.map (fun r => (mapAccessRequestRow r).condition)
      = some J.jNull
  ∧ J.jNull ≠ J.jStr "employed" := by
  rw [createHandler_some c8body 0 7 "0xC1" "0xV1" "employment" rfl rfl rfl (by decide)]
  exact ⟨rfl, rfl, rfl, by simp⟩

/-- C9: the evaluate route runs no transaction, takes no lock and performs
no compare-and-swap on updated_at.  In the interleaving where two Evaluate
calls SELECT the same snapshot, each outcome is computed from the snapshot
alone, and whenever the second call writes, its UPDATE overwrites status,
notes and updated_at unconditionally: the first writer's result is silently
lost and neither caller ever observes a Conflict. -/
theorem c9_lost_update_race :
    (∀ (env : Env) (s0 : Row) (r1 rs1 r2 rs2 : Option J) (t1 t2 : Nat),
      (evalRace env s0 r1 rs1 r2 rs2 t1 t2).1 = evaluateHandler env (some s0) r1 rs1 t1
      ∧ (evalRace env s0 r1 rs1 r2 rs2 t1 t2).2.1 = evaluateHandler env (some s0) r2 rs2 t2)
  ∧ (∀ (env : Env) (s0 : Row) (r1 rs1 r2 rs2 : Option J) (t1 t2 : Nat) (w2 : Row),
      (evaluateHandler env (some s0) r2 rs2 t2).wrote = true →
      (evaluateHandler env (some s0) r2 rs2 t2).row = some w2 →
      (evalRace env s0 r1 rs1 r2 rs2 t1 t2).2.2.status = w2.status
      ∧ (evalRace env s0 r1 rs1 r2 rs2 t1 t2).2.2.notes = w2.notes
      ∧ (evalRace env s0 r1 rs1 r2 rs2 t1 t2).2.2.updated_at = w2.updated_at) := by
  refine ⟨fun env s0 r1 rs1 r2 rs2 t1 t2 => ⟨rfl, rfl⟩, ?_⟩
  intro env s0 r1 rs1 r2 rs2 t1 t2 w2 hw hr
  simp only [evalRace, hw, hr, if_true, applyEvalWrite]
  and_intros <;> trivial

/-- A fixture environment that verifies every credential and decodes it to
an age-21 claims object. -/
def c9env : Env :=
  { verify := fun _ => true
    decode := fun _ => J.jObj [("age", J.jNum 21)]
    credLookup := fun _ => none }

/-- Counterexample to C9 as stated: two Evaluate calls on the same snapshot
(one overriding the result to "granted", one to "denied") both succeed with
no error — no Conflict — the first persists "granted", and the second then
silently overwrites the table with "denied": a lost update. -/
theorem c9_counterexample :
    (evalRace c9env c1row (some (J.jStr "granted")) none (some (J.jStr "denied")) none 3 4).1.ok
        = true
  ∧ (evalRace c9env c1row (some (J.jStr "granted")) none (some (J.jStr "denied")) none 3 4).1.error
        = none
  ∧ (evalRace c9env c1row (some (J.jStr "granted")) none (some (J.jStr "denied")) none 3 4).1.wrote
        = true
  ∧ (evalRace c9env c1row (some (J.jStr "granted")) none (some (J.jStr "denied")) none 3 4).1.row.map
        Row.status = some "granted"
  ∧ (evalRace c9env c1row (some (J.jStr "granted")) none (some (J.jStr "denied")) none 3 4).2.1.ok
        = true
  ∧ (evalRace c9env c1row (some (J.jStr "granted")) none (some (J.jStr "denied")) none 3 4).2.1.error
        = none
  ∧ (evalRace c9env c1row (some (J.jStr "granted")) none (some (J.jStr "denied")) none 3 4).2.1.wrote
        = true
  ∧ (evalRace c9env c1row (some (J.jStr "granted")) none (some (J.jStr "denied")) none 3 4).2.2.status
        = "denied"
  ∧ "denied" ≠ "granted" := by
  have h1 := evaluateHandler_verified c9env c1row (some (J.jStr "granted")) none 3
    (by decide) (by decide) (by decide) (by decide)
  have h2 := evaluateHandler_verified c9env c1row (some (J.jStr "denied")) none 4
    (by decide) (by decide) (by decide) (by decide)
  simp only [evalRace, h1, h2]
  and_intros <;> trivial
